import Mathlib

/-!
# Verification of the keiba_sp repository

Shallow embedding of the repository's benefit calculators
(`src/benefits/maternity.py`), data preprocessor (`src/data/preprocessor.py`),
feature engineering (`src/features/engineering.py`), predictor
(`src/models/predictor.py`) and synthetic data generator
(`src/data/jvlink_loader.py`), together with theorems settling the frozen
claims about them.

Modelling conventions:
* Python floats are modelled as exact rationals (`ℚ`); the float literals
  `0.67` and `0.50` are modelled as `67/100` and `1/2`.
* Fallible Python code (functions that `raise`) returns `Except String α`.
* A pandas `DataFrame` is a rectangular list of named columns whose cells are
  either missing (`NaN`), a number, or a non-numeric token (string).
-/

namespace Keiba

/-! ## Benefits module (`src/benefits/maternity.py`) -/

/-- Result dictionary of `calculate_childcare_leave_benefit`. -/
structure ChildcareBenefit where
  first_period_days : ℤ
  second_period_days : ℤ
  first_period_amount : ℚ
  second_period_amount : ℚ
  total : ℚ
deriving Repr, DecidableEq

/-- `CHILDCARE_LEAVE_RATE_FIRST = 0.67`, modelled exactly. -/
def CHILDCARE_LEAVE_RATE_FIRST : ℚ := 67 / 100

/-- `CHILDCARE_LEAVE_RATE_AFTER = 0.50`, modelled exactly. -/
def CHILDCARE_LEAVE_RATE_AFTER : ℚ := 1 / 2

/-- `CHILDCARE_LEAVE_THRESHOLD_DAYS = 180`. -/
def CHILDCARE_LEAVE_THRESHOLD_DAYS : ℤ := 180

/-- `calculate_childcare_leave_benefit(monthly_wage, leave_days)` from
`src/benefits/maternity.py` lines 95-149: validates non-negativity, splits
the leave into a first period of at most 180 days paid at 67% of the daily
wage and a remainder paid at 50%. -/
def calculate_childcare_leave_benefit (monthly_wage : ℤ) (leave_days : ℤ) :
    Except String ChildcareBenefit :=
  if monthly_wage < 0 then .error "月額賃金は0以上を指定してください。"
  else if leave_days < 0 then .error "育休取得日数は0以上を指定してください。"
  else
    let daily_wage : ℚ := (monthly_wage : ℚ) * 12 / 365
    let first_days : ℤ := min leave_days CHILDCARE_LEAVE_THRESHOLD_DAYS
    let second_days : ℤ := max (leave_days - CHILDCARE_LEAVE_THRESHOLD_DAYS) 0
    let first_amount : ℚ := daily_wage * CHILDCARE_LEAVE_RATE_FIRST * (first_days : ℚ)
    let second_amount : ℚ := daily_wage * CHILDCARE_LEAVE_RATE_AFTER * (second_days : ℚ)
    .ok
      { first_period_days := first_days
        second_period_days := second_days
        first_period_amount := first_amount
        second_period_amount := second_amount
        total := first_amount + second_amount }

/-- `DEPENDENT_DEDUCTION_GENERAL = 380_000`. -/
def DEPENDENT_DEDUCTION_GENERAL : ℤ := 380000

/-- `DEPENDENT_DEDUCTION_SPECIFIED = 630_000`. -/
def DEPENDENT_DEDUCTION_SPECIFIED : ℤ := 630000

/-- `DEPENDENT_DEDUCTION_ELDERLY_CORESIDENT = 580_000`. -/
def DEPENDENT_DEDUCTION_ELDERLY_CORESIDENT : ℤ := 580000

/-- `DEPENDENT_DEDUCTION_ELDERLY_SEPARATE = 480_000`. -/
def DEPENDENT_DEDUCTION_ELDERLY_SEPARATE : ℤ := 480000

/-- `calculate_dependent_deduction(age, is_coresident_elderly)` from
`src/benefits/maternity.py` lines 166-202. -/
def calculate_dependent_deduction (age : ℤ) (is_coresident_elderly : Bool := false) :
    Except String ℤ :=
  if age < 0 then .error "年齢は0以上を指定してください。"
  else if age < 16 then .ok 0
  else if 70 ≤ age then
    .ok (if is_coresident_elderly then DEPENDENT_DEDUCTION_ELDERLY_CORESIDENT
         else DEPENDENT_DEDUCTION_ELDERLY_SEPARATE)
  else if 19 ≤ age ∧ age < 23 then .ok DEPENDENT_DEDUCTION_SPECIFIED
  else .ok DEPENDENT_DEDUCTION_GENERAL

end Keiba

namespace Keiba

/-- C9: for non-negative wage and days the childcare benefit splits the days
exactly (`first_period_days + second_period_days = days`), its `total` is the
sum of the two period amounts, and for `wage > 0` and `days > 180` the per-day
amount of the first period strictly exceeds that of the second period. -/
theorem childcare_leave_benefit_spec (w d : ℤ) (hw : 0 ≤ w) (hd : 0 ≤ d) :
    ∃ b : ChildcareBenefit, calculate_childcare_leave_benefit w d = .ok b ∧
      b.first_period_days + b.second_period_days = d ∧
      b.total = b.first_period_amount + b.second_period_amount ∧
      (0 < w → 180 < d →
        b.first_period_amount / (b.first_period_days : ℚ) >
          b.second_period_amount / (b.second_period_days : ℚ)) := by
  simp only [calculate_childcare_leave_benefit, if_neg (not_lt.mpr hw), if_neg (not_lt.mpr hd)]
  refine ⟨_, rfl, ?_, rfl, ?_⟩
  · simp only [CHILDCARE_LEAVE_THRESHOLD_DAYS]
    omega
  · intro hw0 hd0
    simp only [CHILDCARE_LEAVE_THRESHOLD_DAYS,
      CHILDCARE_LEAVE_RATE_FIRST, CHILDCARE_LEAVE_RATE_AFTER]
    have hmin : min d (180 : ℤ) = 180 := min_eq_right (by omega)
    have hmax : max (d - 180) 0 = d - 180 := max_eq_left (by omega)
    rw [hmin, hmax]
    have hw' : (0 : ℚ) < (w : ℚ) := by exact_mod_cast hw0
    have hd180 : (0 : ℚ) < ((d - 180 : ℤ) : ℚ) := by
      exact_mod_cast (show (0 : ℤ) < d - 180 by omega)
    rw [gt_iff_lt, div_lt_div_iff₀ hd180 (by norm_num : (0 : ℚ) < ((180 : ℤ) : ℚ))]
    push_cast
    have hd180' : (0 : ℚ) < (d : ℚ) - 180 := by
      exact_mod_cast (show ((0 : ℤ) : ℚ) < ((d - 180 : ℤ) : ℚ) from by exact_mod_cast hd180)
    nlinarith [mul_pos hw' hd180', hw', hd180']

/-- Witness for `childcare_leave_benefit_spec` at wage 300000 and 365 days. -/
theorem childcare_leave_benefit_spec_witness :
    ∃ b : ChildcareBenefit, calculate_childcare_leave_benefit 300000 365 = .ok b ∧
      b.first_period_days + b.second_period_days = 365 ∧
      b.total = b.first_period_amount + b.second_period_amount ∧
      (0 < (300000 : ℤ) → 180 < (365 : ℤ) →
        b.first_period_amount / (b.first_period_days : ℚ) >
          b.second_period_amount / (b.second_period_days : ℚ)) :=
  childcare_leave_benefit_spec 300000 365 (by decide) (by decide)

/-- C10: the dependent deduction is 0 below age 16, and the bracket bounds are
inclusive on the lower end: age 16 and 23 give the general 380,000, age 19 the
specified 630,000, and age 70 the elderly bracket (580,000 when co-resident,
480,000 otherwise). -/
theorem dependent_deduction_spec (b : Bool) :
    (∀ age : ℤ, 0 ≤ age → age < 16 → calculate_dependent_deduction age b = .ok 0) ∧
    calculate_dependent_deduction 16 b = .ok 380000 ∧
    calculate_dependent_deduction 19 b = .ok 630000 ∧
    calculate_dependent_deduction 23 b = .ok 380000 ∧
    calculate_dependent_deduction 70 true = .ok 580000 ∧
    calculate_dependent_deduction 70 false = .ok 480000 := by
  refine ⟨?_, ?_, ?_, ?_, ?_, ?_⟩
  · intro age h1 h2
    simp [calculate_dependent_deduction, not_lt.mpr h1, h2]
  all_goals cases b <;> rfl

/-- Witness for `dependent_deduction_spec`: age 10 yields deduction 0. -/
theorem dependent_deduction_spec_witness :
    calculate_dependent_deduction 10 false = .ok 0 :=
  (dependent_deduction_spec false).1 10 (by decide) (by decide)

end Keiba

namespace Keiba

/-! ## DataFrame model

A pandas `DataFrame` is modelled as an ordered list of named columns.  A cell
is missing (`na`, modelling `NaN`), a rational number (`num`), or a
non-numeric token (`cat`, modelling a Python string value). -/

/-- One cell of a dataframe column. -/
inductive Cell where
  | na : Cell
  | num : ℚ → Cell
  | cat : String → Cell
deriving Repr, DecidableEq

/-- A dataframe: ordered list of named columns. -/
structure DataFrame where
  cols : List (String × List Cell)
deriving Repr, DecidableEq

/-- First column with the given name (pandas column lookup). -/
def lookupCol : List (String × List Cell) → String → Option (List Cell)
  | [], _ => none
  | p :: rest, c => if p.1 = c then some p.2 else lookupCol rest c

/-- Column assignment `df[c] = v`: replace the column in place when the name
exists, else append it at the end (pandas semantics). -/
def setColAux : List (String × List Cell) → String → List Cell → List (String × List Cell)
  | [], c, v => [(c, v)]
  | p :: rest, c, v => if p.1 = c then (c, v) :: rest else p :: setColAux rest c v

namespace DataFrame

/-- Column names, in order. -/
def names (df : DataFrame) : List String := df.cols.map Prod.fst

/-- `df[c]`, as an option. -/
def getCol (df : DataFrame) (c : String) : Option (List Cell) := lookupCol df.cols c

/-- `df[c] = v`. -/
def setCol (df : DataFrame) (c : String) (v : List Cell) : DataFrame :=
  ⟨setColAux df.cols c v⟩

/-- Number of rows (length of the first column; 0 for an empty frame). -/
def height (df : DataFrame) : Nat :=
  match df.cols with
  | [] => 0
  | p :: _ => p.2.length

/-- The frame is rectangular with `n` rows: every column has length `n`. -/
def EqLens (df : DataFrame) (n : Nat) : Prop := ∀ p ∈ df.cols, p.2.length = n

end DataFrame

theorem lookupCol_setColAux_self (l : List (String × List Cell)) (c : String)
    (v : List Cell) : lookupCol (setColAux l c v) c = some v := by
  induction l with
  | nil => simp [setColAux, lookupCol]
  | cons p rest ih =>
    by_cases h : p.1 = c
    · simp [setColAux, lookupCol, h]
    · simp [setColAux, lookupCol, h, ih]

theorem lookupCol_setColAux_ne (l : List (String × List Cell)) (c c' : String)
    (v : List Cell) (h : c' ≠ c) :
    lookupCol (setColAux l c v) c' = lookupCol l c' := by
  have h' : ¬c = c' := Ne.symm h
  induction l with
  | nil => simp [setColAux, lookupCol, h']
  | cons p rest ih =>
    by_cases hp : p.1 = c
    · subst hp
      simp [setColAux, lookupCol, h']
    · by_cases hp' : p.1 = c'
      · simp [setColAux, lookupCol, hp, hp', h]
      · simp [setColAux, lookupCol, hp, hp', ih]

theorem map_fst_setColAux (l : List (String × List Cell)) (c : String) (v : List Cell) :
    (setColAux l c v).map Prod.fst =
      if c ∈ l.map Prod.fst then l.map Prod.fst else l.map Prod.fst ++ [c] := by
  induction l with
  | nil => simp [setColAux]
  | cons p rest ih =>
    by_cases h : p.1 = c
    · simp [setColAux, h]
    · have h' : ¬c = p.1 := fun he => h he.symm
      simp only [setColAux, if_neg h, List.map_cons, List.mem_cons]
      rw [ih]
      by_cases hm : c ∈ rest.map Prod.fst
      · simp [hm, h']
      · simp [hm, h']

theorem mem_setColAux (l : List (String × List Cell)) (c : String) (v : List Cell)
    (p : String × List Cell) : p ∈ setColAux l c v → p ∈ l ∨ p = (c, v) := by
  induction l with
  | nil =>
    intro hp
    simp only [setColAux, List.mem_singleton] at hp
    exact Or.inr hp
  | cons q rest ih =>
    intro hp
    by_cases h : q.1 = c
    · simp only [setColAux, if_pos h, List.mem_cons] at hp
      rcases hp with hp | hp
      · exact Or.inr hp
      · exact Or.inl (List.mem_cons_of_mem _ hp)
    · simp only [setColAux, if_neg h, List.mem_cons] at hp
      rcases hp with hp | hp
      · exact Or.inl (hp ▸ List.mem_cons_self _ _)
      · rcases ih hp with h1 | h1
        · exact Or.inl (List.mem_cons_of_mem _ h1)
        · exact Or.inr h1

theorem lookupCol_eq_none_iff (l : List (String × List Cell)) (c : String) :
    lookupCol l c = none ↔ c ∉ l.map Prod.fst := by
  induction l with
  | nil => simp [lookupCol]
  | cons p rest ih =>
    by_cases h : p.1 = c
    · simp [lookupCol, h]
    · have h' : ¬c = p.1 := fun he => h he.symm
      simp [lookupCol, h, ih, h']

theorem lookupCol_isSome_iff (l : List (String × List Cell)) (c : String) :
    (lookupCol l c).isSome ↔ c ∈ l.map Prod.fst := by
  induction l with
  | nil => simp [lookupCol]
  | cons p rest ih =>
    by_cases h : p.1 = c
    · simp [lookupCol, h]
    · have h' : ¬c = p.1 := fun he => h he.symm
      simp [lookupCol, h, ih, h']

namespace DataFrame

theorem getCol_setCol_self (df : DataFrame) (c : String) (v : List Cell) :
    (df.setCol c v).getCol c = some v := lookupCol_setColAux_self _ _ _

theorem getCol_setCol_ne (df : DataFrame) (c c' : String) (v : List Cell)
    (h : c' ≠ c) : (df.setCol c v).getCol c' = df.getCol c' :=
  lookupCol_setColAux_ne _ _ _ _ h

theorem names_setCol (df : DataFrame) (c : String) (v : List Cell) :
    (df.setCol c v).names =
      if c ∈ df.names then df.names else df.names ++ [c] :=
  map_fst_setColAux _ _ _

theorem getCol_eq_none_iff (df : DataFrame) (c : String) :
    df.getCol c = none ↔ c ∉ df.names := lookupCol_eq_none_iff _ _

theorem getCol_isSome_iff (df : DataFrame) (c : String) :
    (df.getCol c).isSome ↔ c ∈ df.names := lookupCol_isSome_iff _ _

theorem eqLens_setCol (df : DataFrame) (c : String) (v : List Cell) (n : Nat)
    (hdf : df.EqLens n) (hv : v.length = n) : (df.setCol c v).EqLens n := by
  intro p hp
  rcases mem_setColAux _ _ _ _ hp with h | h
  · exact hdf p h
  · simp [h, hv]

theorem getCol_length (df : DataFrame) (c : String) (v : List Cell) (n : Nat)
    (hdf : df.EqLens n) (h : df.getCol c = some v) : v.length = n := by
  have : ∀ l : List (String × List Cell), (∀ p ∈ l, (Prod.snd p).length = n) →
      lookupCol l c = some v → v.length = n := by
    intro l
    induction l with
    | nil => intro _ h2; simp [lookupCol] at h2
    | cons p rest ih =>
      intro h1 h2
      by_cases hp : p.1 = c
      · simp [lookupCol, hp] at h2
        rw [← h2]
        exact h1 p (by simp)
      · simp only [lookupCol, if_neg hp] at h2
        exact ih (fun q hq => h1 q (List.mem_cons_of_mem _ hq)) h2
  exact this df.cols hdf h

end DataFrame

end Keiba

namespace Keiba

/-! ## Preprocessor (`src/data/preprocessor.py`) -/

/-- `TRACK_TYPE_MAP = {"芝": 0, "ダート": 1, "障害": 2}`. -/
def TRACK_TYPE_MAP : List (String × ℤ) := [("芝", 0), ("ダート", 1), ("障害", 2)]

/-- `TRACK_CONDITION_MAP = {"良": 0, "稍重": 1, "重": 2, "不良": 3}`. -/
def TRACK_CONDITION_MAP : List (String × ℤ) := [("良", 0), ("稍重", 1), ("重", 2), ("不良", 3)]

/-- `SEX_MAP = {"牡": 0, "牝": 1, "騸": 2}`. -/
def SEX_MAP : List (String × ℤ) := [("牡", 0), ("牝", 1), ("騸", 2)]

/-- One cell of `df[col].map(M).fillna(-1).astype(int)`: a token found in the
enumeration gets its code, anything else (unknown token, number, missing)
maps to the sentinel -1. -/
def mapEncode (m : List (String × ℤ)) : Cell → Cell
  | .cat s =>
    match m.lookup s with
    | some k => .num (k : ℚ)
    | none => .num (-1)
  | _ => .num (-1)

/-- One cell of `pd.to_numeric(col, errors="coerce")`: numbers survive,
non-numeric tokens and missing cells become missing. -/
def toNumericCell : Cell → Cell
  | .num q => .num q
  | _ => .na

/-- The numeric values of a column, missing cells skipped. -/
def cellNums (v : List Cell) : List ℚ :=
  v.filterMap fun c =>
    match c with
    | .num q => some q
    | _ => none

/-- Insert into an ascending-sorted list of rationals. -/
def insortQ (x : ℚ) : List ℚ → List ℚ
  | [] => [x]
  | y :: rest => if x ≤ y then x :: y :: rest else y :: insortQ x rest

/-- Ascending insertion sort on rationals. -/
def sortQ (l : List ℚ) : List ℚ := l.foldr insortQ []

/-- `Series.median()` skipping missing values: middle element of the sorted
numeric values (mean of the two middles for even count), missing when the
column has no numeric value. -/
def medianCell (v : List Cell) : Cell :=
  let s := sortQ (cellNums v)
  let n := s.length
  if n = 0 then .na
  else if n % 2 = 1 then .num (s.getD (n / 2) 0)
  else .num ((s.getD (n / 2 - 1) 0 + s.getD (n / 2) 0) / 2)

/-- `Series.fillna(x)`: missing cells replaced by `x` (a missing `x` fills
nothing, like filling with `NaN`). -/
def fillna (v : List Cell) (x : Cell) : List Cell :=
  v.map fun c =>
    match c with
    | .na => x
    | c => c

/-- The `numeric_cols` list of `preprocess` (lines 43-53). -/
def numeric_cols : List String :=
  ["horse_weight", "horse_weight_diff", "age", "days_since_last_race",
   "past_top3_rate", "jockey_win_rate", "trainer_win_rate", "win_odds",
   "popularity"]

/-- One step of the missing-value imputation loop (lines 54-57): coerce the
column to numeric and fill missing cells with the column median; a column
that is absent is skipped. -/
def imputeStep (df : DataFrame) (col : String) : DataFrame :=
  match df.getCol col with
  | none => df
  | some v =>
    let v' := v.map toNumericCell
    df.setCol col (fillna v' (medianCell v'))

/-- Division of a cell by a nonzero constant (`df["distance"] / 1000.0`);
a non-numeric token is a `TypeError`, as in pandas. -/
def divCellBy (q : ℚ) : Cell → Except String Cell
  | .num x => .ok (.num (x / q))
  | .na => .ok .na
  | .cat _ => .error "TypeError: unsupported operand type"

/-- One cell of `(df["finish_position"] == 1).astype(int)`: equality with 1
is False for missing cells and tokens. -/
def eqOneCell : Cell → Cell
  | .num q => .num (if q = 1 then 1 else 0)
  | _ => .num 0

/-- One cell of `(df["finish_position"] <= 3).astype(int)`: a missing cell
compares False, a non-numeric token raises `TypeError`, as in pandas. -/
def leThreeCell : Cell → Except String Cell
  | .num q => .ok (.num (if q ≤ 3 then 1 else 0))
  | .na => .ok (.num 0)
  | .cat _ => .error "TypeError: comparison not supported"

/-- Element-wise application of a fallible cell operation; the first raised
error aborts, as in pandas. -/
def mapExcept (f : Cell → Except String Cell) : List Cell → Except String (List Cell)
  | [] => .ok []
  | c :: rest =>
    match f c with
    | .error e => .error e
    | .ok c' =>
      match mapExcept f rest with
      | .error e => .error e
      | .ok rest' => .ok (c' :: rest')

/-- `preprocess(df)` from `src/data/preprocessor.py` lines 19-72: encode the
three categorical columns (required: a missing one raises `KeyError`), impute
the numeric columns, add `distance_km` and the `is_win` / `is_top3` labels
when their source columns are present. -/
def preprocess (df : DataFrame) : Except String DataFrame :=
  match df.getCol "track_type" with
  | none => .error "KeyError: track_type"
  | some tt =>
    let df1 := df.setCol "track_type_enc" (tt.map (mapEncode TRACK_TYPE_MAP))
    match df1.getCol "track_condition" with
    | none => .error "KeyError: track_condition"
    | some tc =>
      let df2 := df1.setCol "track_condition_enc" (tc.map (mapEncode TRACK_CONDITION_MAP))
      match df2.getCol "sex" with
      | none => .error "KeyError: sex"
      | some sx =>
        let df3 := df2.setCol "sex_enc" (sx.map (mapEncode SEX_MAP))
        let df4 := numeric_cols.foldl imputeStep df3
        let step5 : Except String DataFrame :=
          match df4.getCol "distance" with
          | some v =>
            match mapExcept (divCellBy 1000) v with
            | .error e => .error e
            | .ok v' => .ok (df4.setCol "distance_km" v')
          | none => .ok df4
        match step5 with
        | .error e => .error e
        | .ok df5 =>
          let df6 :=
            match df5.getCol "finish_position" with
            | some v => df5.setCol "is_win" (v.map eqOneCell)
            | none => df5
          match df6.getCol "finish_position" with
          | some v =>
            match mapExcept leThreeCell v with
            | .error e => .error e
            | .ok v' => .ok (df6.setCol "is_top3" v')
          | none => .ok df6

/-- `get_feature_columns()` (lines 75-98). -/
def get_feature_columns : List String :=
  ["horse_weight", "horse_weight_diff", "age", "sex_enc", "post_position",
   "distance_km", "track_type_enc", "track_condition_enc",
   "days_since_last_race", "past_top3_rate", "jockey_win_rate",
   "trainer_win_rate", "popularity"]

/-- `get_target_column()` (lines 101-110). -/
def get_target_column : String := "is_win"

end Keiba

namespace Keiba

/-! ## Feature engineering (`src/features/engineering.py`)

Group-wise pandas operations (`groupby("race_id")[col].rank/transform`) are
modelled row-wise: a row whose group key is missing gets a missing result
(pandas drops `NaN` keys from groups); ranking and aggregation consider the
numeric cells of the column.  Operations pandas refuses on a column holding a
non-numeric token are fallible and raise `TypeError` there, as `divCellBy`
does in the preprocessor: the grouped rank and mean (whose kernels have no
object-dtype path) and element-wise division with a token operand. -/

/-- Is the cell a non-numeric token? -/
def isTok : Cell → Bool
  | Cell.cat _ => true
  | _ => false

/-- Does the column contain a non-numeric token? -/
def hasTok (v : List Cell) : Bool := v.any isTok

/-- Comparison used by `rank(method="min")`: does cell `w` rank strictly
before value `v`?  (ascending: `w < v`; descending: `w > v`; non-numeric
cells never count). -/
def rankCmp (asc : Bool) (v : ℚ) : Cell → Bool
  | Cell.num w => if asc then decide (w < v) else decide (v < w)
  | _ => false

/-- Competition ranking within each group of a token-free column: missing
keys and missing values rank as missing. -/
def rankVals (asc : Bool) (keys vals : List Cell) : List Cell :=
  (List.range vals.length).map fun i =>
    match keys.getD i Cell.na with
    | Cell.na => Cell.na
    | k =>
      match vals.getD i Cell.na with
      | Cell.num v =>
        Cell.num (1 + (((List.range vals.length).countP fun j =>
          decide (keys.getD j Cell.na = k) && rankCmp asc v (vals.getD j Cell.na) : ℕ) : ℚ))
      | _ => Cell.na

/-- `groupby(keys)[vals].rank(method="min", ascending=asc)`: the grouped rank
kernel has no object-dtype path, so a non-numeric token anywhere in the
ranked column raises `TypeError`; otherwise competition ranking within each
group. -/
def rankMinBy (asc : Bool) (keys vals : List Cell) : Except String (List Cell) :=
  if hasTok vals then .error "TypeError: rank is not supported for object dtype"
  else .ok (rankVals asc keys vals)

/-- Binary maximum on rationals, written with an explicit comparison so that
it evaluates by kernel reduction. -/
def max2 (a b : ℚ) : ℚ := if a ≤ b then b else a

/-- Maximum of a list of rationals, `none` when empty. -/
def maxQ : List ℚ → Option ℚ
  | [] => none
  | x :: xs => some (xs.foldl max2 x)

/-- The numeric cells of column `vals` whose row has group key `k`. -/
def groupNums (keys vals : List Cell) (k : Cell) : List ℚ :=
  cellNums ((List.range vals.length).filterMap fun j =>
    if keys.getD j Cell.na = k then some (vals.getD j Cell.na) else none)

/-- The value of `groupby(keys)[vals].transform("max")` on a token-free
column. -/
def transformMaxVals (keys vals : List Cell) : List Cell :=
  (List.range vals.length).map fun i =>
    match keys.getD i Cell.na with
    | Cell.na => Cell.na
    | k =>
      match maxQ (groupNums keys vals k) with
      | some m => Cell.num m
      | none => Cell.na

/-- `groupby(keys)[vals].transform("max")` as `add_race_relative_features`
reaches it (line 39): pandas raises `TypeError` comparing a token against a
number and returns the token maximum on an all-token column, but line 35 has
already ranked the same column, raising whenever a token is present, so
raising on any token models every reachable input. -/
def transformMax (keys vals : List Cell) : Except String (List Cell) :=
  if hasTok vals then .error "TypeError: could not compare token with number"
  else .ok (transformMaxVals keys vals)

/-- `groupby(keys)[vals].transform("count")`: number of non-missing cells in
the row's group (defined for every dtype, hence total). -/
def transformCount (keys vals : List Cell) : List Cell :=
  (List.range vals.length).map fun i =>
    match keys.getD i Cell.na with
    | Cell.na => Cell.na
    | k =>
      Cell.num (((List.range vals.length).countP fun j =>
        decide (keys.getD j Cell.na = k) && decide (vals.getD j Cell.na ≠ Cell.na) : ℕ) : ℚ)

/-- The value of `groupby(keys)[vals].transform("mean")` on a token-free
column. -/
def transformMeanVals (keys vals : List Cell) : List Cell :=
  (List.range vals.length).map fun i =>
    match keys.getD i Cell.na with
    | Cell.na => Cell.na
    | k =>
      let g := groupNums keys vals k
      if g.length = 0 then Cell.na else Cell.num (g.sum / (g.length : ℚ))

/-- `groupby(keys)[vals].transform("mean")`: aggregating a column holding a
non-numeric token raises `TypeError`; otherwise the group mean over the
numeric cells. -/
def transformMean (keys vals : List Cell) : Except String (List Cell) :=
  if hasTok vals then .error "TypeError: could not convert token to numeric"
  else .ok (transformMeanVals keys vals)

/-- The value of an element-wise division whose operands are numeric or
missing; missing propagates.  The source replaces zero and missing
denominators before every division it performs, so the zero branch is
unreachable in its uses. -/
def divVal : Cell → Cell → Cell
  | Cell.num x, Cell.num y => if y = 0 then Cell.na else Cell.num (x / y)
  | _, _ => Cell.na

/-- One cell of an element-wise `Series` division: a non-numeric token
operand raises `TypeError` (as `divCellBy` does in the preprocessor);
missing propagates. -/
def cellDiv (a b : Cell) : Except String Cell :=
  if isTok a || isTok b then .error "TypeError: unsupported operand type for div"
  else .ok (divVal a b)

/-- Element-wise division of two columns, propagating the first raised
`TypeError`. -/
def zipDiv : List Cell → List Cell → Except String (List Cell)
  | x :: xs, y :: ys =>
    match cellDiv x y with
    | .error e => .error e
    | .ok c =>
      match zipDiv xs ys with
      | .error e => .error e
      | .ok cs => .ok (c :: cs)
  | _, _ => .ok []

/-- Element-wise subtraction; missing propagates.  Both columns it is applied
to are produced by the speed pass itself (the speed column and its per-race
mean) and hold no tokens; pandas would raise on a token operand but the case
is unreachable. -/
def cellSub : Cell → Cell → Cell
  | Cell.num x, Cell.num y => Cell.num (x - y)
  | _, _ => Cell.na

/-- `Series.replace(0, np.nan)`. -/
def replace0na (v : List Cell) : List Cell :=
  v.map fun c => if c = Cell.num 0 then Cell.na else c

/-- Chain a fallible step onto a fallible intermediate frame, propagating the
raised error. -/
def bindE : Except String DataFrame → (DataFrame → Except String DataFrame) →
    Except String DataFrame
  | .error e, _ => .error e
  | .ok d, f => f d

/-- The odds block of `add_race_relative_features` (lines 34-40): when
`win_odds` is present, the per-race odds rank (line 35, raising on a token in
`win_odds`), the per-race maximum (line 39), and the normalized odds
`win_odds / max` with a zero or missing race maximum replaced by 1
(line 40). -/
def oddsBlock (keys : List Cell) (df : DataFrame) : Except String DataFrame :=
  if "win_odds" ∈ df.names then
    let v := (df.getCol "win_odds").getD []
    match rankMinBy true keys v with
    | .error e => .error e
    | .ok rk =>
      match transformMax keys v with
      | .error e => .error e
      | .ok race_max_odds =>
        match zipDiv v (fillna (replace0na race_max_odds) (Cell.num 1)) with
        | .error e => .error e
        | .ok onv => .ok ((df.setCol "odds_rank_in_race" rk).setCol "odds_norm" onv)
  else .ok df

/-- An optional per-race rank block of `add_race_relative_features`
(lines 43-46 and 49-52): rank the column within races when it is present. -/
def optRankBlock (keys : List Cell) (cname newname : String) (asc : Bool)
    (mid : DataFrame) : Except String DataFrame :=
  if cname ∈ mid.names then
    match rankMinBy asc keys ((mid.getCol cname).getD []) with
    | .error e => .error e
    | .ok rk => .ok (mid.setCol newname rk)
  else .ok mid

/-- `add_race_relative_features(df)` from `src/features/engineering.py`
lines 14-57: no-op without `race_id`; otherwise the odds block, the weight
and jockey rank blocks, and the per-race entry count (which reads
`horse_num` unconditionally and hence raises `KeyError` when that column is
absent). -/
def add_race_relative_features (df : DataFrame) : Except String DataFrame :=
  if "race_id" ∉ df.names then .ok df
  else
    let keys := (df.getCol "race_id").getD []
    bindE (oddsBlock keys df) fun df1 =>
      bindE (optRankBlock keys "horse_weight" "weight_rank_in_race" false df1) fun df2 =>
        bindE (optRankBlock keys "jockey_win_rate" "jockey_rank_in_race" false df2) fun df3 =>
          match df3.getCol "horse_num" with
          | none => .error "KeyError: Column not found: horse_num"
          | some hv => .ok (df3.setCol "horses_in_race" (transformCount keys hv))

/-- `add_speed_index(df)` from `src/features/engineering.py` lines 60-94:
no-op unless both `finish_time_sec` and `distance` are present; otherwise
adds `speed_mps = distance / finish_time_sec` (zero times excluded; a token
in either column raises `TypeError` at the division), and, when `race_id` is
present, the per-race speed rank and the deviation from the race's mean
speed. -/
def add_speed_index (df : DataFrame) : Except String DataFrame :=
  if "finish_time_sec" ∉ df.names ∨ "distance" ∉ df.names then .ok df
  else
    match zipDiv ((df.getCol "distance").getD [])
        (replace0na ((df.getCol "finish_time_sec").getD [])) with
    | .error e => .error e
    | .ok speed =>
      let df1 := df.setCol "speed_mps" speed
      if "race_id" ∈ df1.names then
        let keys := (df1.getCol "race_id").getD []
        match rankMinBy false keys speed with
        | .error e => .error e
        | .ok rk =>
          match transformMean keys speed with
          | .error e => .error e
          | .ok race_mean_speed =>
            .ok ((df1.setCol "speed_rank_in_race" rk).setCol "speed_diff_from_mean"
              (List.zipWith cellSub speed race_mean_speed))
      else .ok df1

/-- `build_features(df)` (lines 97-114): the relative-ranking pass followed
by the speed-index pass, propagating a raised error. -/
def build_features (df : DataFrame) : Except String DataFrame :=
  match add_race_relative_features df with
  | .error e => .error e
  | .ok df1 => add_speed_index df1

/-- `get_engineered_feature_columns()` (lines 117-132). -/
def get_engineered_feature_columns : List String :=
  ["odds_rank_in_race", "odds_norm", "weight_rank_in_race",
   "jockey_rank_in_race", "horses_in_race"]

end Keiba

namespace Keiba

/-! ## Predictor (`src/models/predictor.py`)

The fitted scikit-learn classifier is external to the repository: it is
modelled as an opaque `FittedModel`, a function from the selected feature
table to one win probability per row together with its native feature
importances.  `joblib` persistence is modelled as a map from file paths to
stored artifacts. -/

/-- An opaque fitted classifier: `predict_proba(X)[:, 1]` and
`feature_importances_`. -/
structure FittedModel where
  predictProbaOne : DataFrame → List ℚ
  feature_importances : List ℚ

/-- The artifact `joblib.dump`ed by `save`: the fitted classifier and its
feature-column list. -/
structure ModelArtifact where
  model : FittedModel
  feature_cols : List String

/-- `_MODEL_FILENAME`. -/
def _MODEL_FILENAME : String := "horse_race_predictor.joblib"

/-- `_all_feature_columns()` (lines 23-25). -/
def _all_feature_columns : List String :=
  get_feature_columns ++ get_engineered_feature_columns

/-- `HorseRacePredictor` state: configuration plus the optional fitted model
and the ordered feature-column list stored at training or loading time. -/
structure HorseRacePredictor where
  model_dir : String
  n_estimators : ℕ
  random_state : ℕ
  _model : Option FittedModel
  _feature_cols : List String

/-- `HorseRacePredictor(...)` constructor defaults (lines 31-36): the fresh
predictor is untrained. -/
def HorseRacePredictor.init (model_dir : String := "models")
    (n_estimators : ℕ := 200) (random_state : ℕ := 42) : HorseRacePredictor :=
  ⟨model_dir, n_estimators, random_state, none, []⟩

/-- `df[[c for c in cs if c in df.columns]]`: sub-frame of the listed
columns present in `df`, in list order. -/
def selectCols (df : DataFrame) (cs : List String) : DataFrame :=
  ⟨cs.filterMap fun c => (df.getCol c).map fun v => (c, v)⟩

/-- `_select_features` (lines 38-42). -/
def _select_features (df : DataFrame) : DataFrame :=
  selectCols df _all_feature_columns

/-- `predict_proba(df)` (lines 87-104): untrained-model error when no model
is stored, else the classifier's probabilities on the stored feature columns
(those present in `df`). -/
def predict_proba (p : HorseRacePredictor) (df : DataFrame) : Except String (List ℚ) :=
  match p._model with
  | none => .error "モデルが学習されていません。train() を先に呼び出してください。"
  | some m => .ok (m.predictProbaOne (selectCols df p._feature_cols))

/-- Stable descending insertion of index `i`: earlier input indices stay
before later ones whose key is not strictly larger. -/
def insertDescIdx (key : ℕ → ℚ) (i : ℕ) : List ℕ → List ℕ
  | [] => [i]
  | j :: rest => if key i < key j then j :: insertDescIdx key i rest else i :: j :: rest

/-- Stable descending sort of a list of indices by key. -/
def sortDescIdx (key : ℕ → ℚ) (l : List ℕ) : List ℕ := l.foldr (insertDescIdx key) []

/-- The numeric value of a cell, 0 otherwise (used only on numeric cells). -/
def cellQ (c : Cell) : ℚ :=
  match c with
  | Cell.num x => x
  | _ => 0

/-- Is the cell numeric? -/
def cellIsNum (c : Cell) : Bool :=
  match c with
  | Cell.num _ => true
  | _ => false

/-- pandas `nargsort(key, ascending=False, na_position="last")` from
`pandas/core/sorting.py`: set the missing entries aside, reverse the
non-missing values and their positions, run `np.argsort(kind="quicksort")`
on the reversed values — the `kernel` parameter, numpy code outside this
repository — reverse the resulting indexer, and append the positions of the
missing entries.  numpy contracts the kernel to return an ascending argsort
of its input; the order it gives equal keys is not specified: its introsort
is stable on the small-array insertion-sort path (up to 16 elements) and
reorders equal keys above it, so no tie order is assumed here. -/
def nargsortDesc (kernel : List ℚ → List ℕ) (key : List Cell) : List ℕ :=
  let n := key.length
  let nonNaIdx := (List.range n).filter fun i => cellIsNum (key.getD i Cell.na)
  let naIdx := (List.range n).filter fun i => !cellIsNum (key.getD i Cell.na)
  let revIdx := nonNaIdx.reverse
  let revVals := (nonNaIdx.map fun i => cellQ (key.getD i Cell.na)).reverse
  ((kernel revVals).map fun k => revIdx.getD k 0).reverse ++ naIdx

/-- Permute the rows of a frame by the given index list. -/
def applyPerm (df : DataFrame) (perm : List ℕ) : DataFrame :=
  ⟨df.cols.map fun p => (p.1, perm.map fun i => p.2.getD i Cell.na)⟩

/-- `df.sort_values(c, ascending=False).reset_index(drop=True)`, the sort
delegated to numpy through the argsort `kernel`. -/
def sort_values_desc (kernel : List ℚ → List ℕ) (df : DataFrame) (c : String) :
    DataFrame :=
  applyPerm df (nargsortDesc kernel ((df.getCol c).getD []))

/-- `predict_race(race_df)` (lines 106-124): append `win_probability`, sort
by it descending (through numpy's argsort kernel), then append
`prediction_rank = 1..len`. -/
def predict_race (kernel : List ℚ → List ℕ) (p : HorseRacePredictor)
    (race_df : DataFrame) : Except String DataFrame :=
  (predict_proba p race_df).map fun probs =>
    let result := race_df.setCol "win_probability" (probs.map Cell.num)
    let result := sort_values_desc kernel result "win_probability"
    result.setCol "prediction_rank"
      ((List.range result.height).map fun i => Cell.num ((i : ℚ) + 1))

/-- `get_feature_importances()` (lines 126-140): untrained-model error when
no model is stored, else the importances indexed by the stored feature
columns, sorted descending.  The sort is written as a stable insertion sort;
as with `sort_values`, pandas leaves the order of equal importances to
numpy's kernel, and no theorem below depends on the order of this list. -/
def get_feature_importances (p : HorseRacePredictor) :
    Except String (List (String × ℚ)) :=
  match p._model with
  | none => .error "モデルが学習されていません。train() を先に呼び出してください。"
  | some m =>
    let vals := m.feature_importances
    let perm := sortDescIdx (fun i => vals.getD i 0) (List.range vals.length)
    .ok (perm.map fun i => (p._feature_cols.getD i "", vals.getD i 0))

/-- `save(model_dir)` (lines 142-157): no-model error when untrained, else
write the artifact (classifier plus feature-column list) at the fixed
filename under the directory, overwriting. -/
def save (p : HorseRacePredictor) (fs : String → Option ModelArtifact)
    (dirArg : Option String := none) :
    Except String (String → Option ModelArtifact) :=
  match p._model with
  | none => .error "保存するモデルがありません。train() を先に呼び出してください。"
  | some m =>
    let dir := dirArg.getD p.model_dir
    let path := dir ++ "/" ++ _MODEL_FILENAME
    .ok fun k => if k = path then some ⟨m, p._feature_cols⟩ else fs k

/-- `load(model_dir)` (lines 159-175): returns the updated predictor state
and the raised error, if any.  The not-found check precedes every assignment
to the predictor's fields, so on error the state is returned unchanged. -/
def load (p : HorseRacePredictor) (fs : String → Option ModelArtifact)
    (dirArg : Option String := none) :
    HorseRacePredictor × Except String Unit :=
  let dir := dirArg.getD p.model_dir
  let path := dir ++ "/" ++ _MODEL_FILENAME
  match fs path with
  | none => (p, .error ("モデルファイルが見つかりません: " ++ path))
  | some a => ({ p with _model := some a.model, _feature_cols := a.feature_cols }, .ok ())

end Keiba

namespace Keiba

/-! ## Synthetic data generator (`src/data/jvlink_loader.py`)

`np.random.default_rng(42)` is external: it is modelled as an abstract stream
of raw natural-number draws together with a position, each generator call
consuming one draw.  A fixed seed fixes the stream, so every property below
is proved for an arbitrary stream.  `rng.permutation(n)` is numpy's
Fisher-Yates shuffle of `arange(n)`. -/

/-- Abstract pseudo-random generator state: the seed-determined raw stream
and the current position. -/
structure Rng where
  stream : ℕ → ℕ
  pos : ℕ

/-- Consume one raw draw. -/
def Rng.next (r : Rng) : ℕ × Rng := (r.stream r.pos, ⟨r.stream, r.pos + 1⟩)

/-- `rng.integers(lo, hi)`: a draw in `[lo, hi)` (the bounded draw is the raw
draw reduced modulo the range width). -/
def Rng.integers (r : Rng) (lo hi : ℕ) : ℕ × Rng :=
  let (x, r') := r.next
  (lo + x % (hi - lo), r')

/-- `rng.integers(lo, hi)` with integer bounds (used for the signed weight
difference). -/
def Rng.integersZ (r : Rng) (lo hi : ℤ) : ℤ × Rng :=
  let (x, r') := r.next
  (lo + (x : ℤ) % (hi - lo), r')

/-- `rng.choice(xs)` on a list of naturals. -/
def Rng.choiceNat (r : Rng) (xs : List ℕ) : ℕ × Rng :=
  let (x, r') := r.next
  (xs.getD (x % xs.length) 0, r')

/-- `rng.choice(xs)` on a list of strings. -/
def Rng.choiceStr (r : Rng) (xs : List String) : String × Rng :=
  let (x, r') := r.next
  (xs.getD (x % xs.length) "", r')

/-- `rng.uniform(lo, hi)`: a rational in `[lo, hi)` derived from one raw
draw. -/
def Rng.uniformQ (r : Rng) (lo hi : ℚ) : ℚ × Rng :=
  let (x, r') := r.next
  (lo + ((x % 1000 : ℕ) : ℚ) / 1000 * (hi - lo), r')

/-- Python `round(q, d)` (round-half-up suffices for the modelled stream
values). -/
def roundQ (d : ℕ) (q : ℚ) : ℚ := ((⌊q * (10 : ℚ) ^ d + 1 / 2⌋ : ℤ) : ℚ) / (10 : ℚ) ^ d

/-- Zero-padded decimal formatting, Python `f"{n:0wd}"`. -/
def padNum (w : ℕ) (n : ℕ) : String :=
  let s := toString n
  String.mk (List.replicate (w - s.length) '0') ++ s

/-- numpy Fisher-Yates shuffle: for `i` from `n-1` down to `1`, swap `a[i]`
with `a[j]`, `j = integers(0, i+1)`; formulated by moving the chosen element
to the back and recursing on the remaining front. -/
def fisherYates (r : Rng) (l : List ℕ) : List ℕ × Rng :=
  if _h : l.length ≤ 1 then (l, r)
  else
    let n := l.length
    let (j, r1) := r.integers 0 n
    let x := l.getD j 0
    let front := (l.take (n - 1)).set j (l.getD (n - 1) 0)
    let (front', r2) := fisherYates r1 front
    (front' ++ [x], r2)
termination_by l.length
decreasing_by
  simp only [List.length_set, List.length_take]
  omega

/-- One row of the synthetic table (lines 139-166). -/
structure RaceRecord where
  race_id : String
  horse_num : ℕ
  horse_id : String
  horse_name : String
  jockey_id : String
  trainer_id : String
  horse_weight : ℕ
  horse_weight_diff : ℤ
  age : ℕ
  sex : String
  post_position : ℕ
  distance : ℕ
  track_type : String
  track_condition : String
  finish_time_sec : ℚ
  finish_position : ℕ
  win_odds : ℚ
  popularity : ℕ
  days_since_last_race : ℕ
  past_top3_rate : ℚ
  jockey_win_rate : ℚ
  trainer_win_rate : ℚ
  race_date : String
  venue_code : String

/-- One horse's record (the dict literal of lines 139-166), consuming draws
in the order the dict values are evaluated.  `finish_position` is
`finish_order[horse_num - 1]`. -/
def mkHorseRecord (r : Rng) (race_id n_horses : ℕ) (finish_order : List ℕ)
    (horse_num : ℕ) : RaceRecord × Rng :=
  let (hid, r) := r.integers 1000 9999
  let (hname, r) := r.integers 1 1000
  let (jid, r) := r.integers 1 50
  let (tid, r) := r.integers 1 100
  let (hw, r) := r.integers 420 560
  let (hwd, r) := r.integersZ (-10) 11
  let (ag, r) := r.integers 2 8
  let (sx, r) := r.choiceStr ["牡", "牝", "騸"]
  let (dist, r) := r.choiceNat [1000, 1200, 1400, 1600, 1800, 2000, 2400]
  let (tt, r) := r.choiceStr ["芝", "ダート"]
  let (tc, r) := r.choiceStr ["良", "稍重", "重", "不良"]
  let (fts, r) := r.uniformQ 60 160
  let (wo, r) := r.uniformQ (11 / 10) (999 / 10)
  let (pop, r) := r.integers 1 (n_horses + 1)
  let (dslr, r) := r.integers 7 180
  let (ptr, r) := r.uniformQ 0 1
  let (jwr, r) := r.uniformQ 0 (3 / 10)
  let (twr, r) := r.uniformQ 0 (3 / 10)
  let (vc, r) := r.choiceStr ["01", "02", "03", "04", "05", "06"]
  ({ race_id := "2024" ++ padNum 4 race_id
     horse_num := horse_num
     horse_id := "H" ++ padNum 4 hid
     horse_name := "テスト馬" ++ padNum 3 hname
     jockey_id := "J" ++ padNum 2 jid
     trainer_id := "T" ++ padNum 3 tid
     horse_weight := hw
     horse_weight_diff := hwd
     age := ag
     sex := sx
     post_position := horse_num
     distance := dist
     track_type := tt
     track_condition := tc
     finish_time_sec := roundQ 1 fts
     finish_position := finish_order.getD (horse_num - 1) 0
     win_odds := roundQ 1 wo
     popularity := pop
     days_since_last_race := dslr
     past_top3_rate := roundQ 3 ptr
     jockey_win_rate := roundQ 3 jwr
     trainer_win_rate := roundQ 3 twr
     race_date := "2024" ++ padNum 2 (race_id / 10 + 1) ++ padNum 2 (race_id % 28 + 1)
     venue_code := vc }, r)

/-- The inner `for horse_num in range(1, n_horses + 1)` loop. -/
def horseRecords (race_id n_horses : ℕ) (finish_order : List ℕ) :
    List ℕ → Rng → List RaceRecord × Rng
  | [], r => ([], r)
  | h :: hs, r =>
    let (rc, r1) := mkHorseRecord r race_id n_horses finish_order h
    let (rest, r2) := horseRecords race_id n_horses finish_order hs r1
    (rc :: rest, r2)

/-- One race of the outer loop (lines 134-166): draw the entry count in
`[8, 16]`, a finish permutation of `1..n`, then the entry records. -/
def raceRecords (r : Rng) (race_id : ℕ) : List RaceRecord × Rng :=
  let (n_horses, r1) := r.integers 8 17
  let (perm, r2) := fisherYates r1 (List.range n_horses)
  let finish_order := perm.map (· + 1)
  horseRecords race_id n_horses finish_order (List.range' 1 n_horses) r2

/-- The outer loop over `race_id in range(1, n_races + 1)`, grouped per
race. -/
def racesAux : List ℕ → Rng → List (List RaceRecord) × Rng
  | [], r => ([], r)
  | rid :: rest, r =>
    let (rr, r1) := raceRecords r rid
    let (others, r2) := racesAux rest r1
    (rr :: others, r2)

/-- The per-race grouping of `_generate_sample_race_results` with
`n_races = 100`. -/
def sampleRaces (r : Rng) : List (List RaceRecord) :=
  (racesAux (List.range' 1 100) r).1

/-- `_generate_sample_race_results()` (lines 120-168): the flat record list,
races in order. -/
def _generate_sample_race_results (r : Rng) : List RaceRecord :=
  (sampleRaces r).flatten

end Keiba

namespace Keiba

/-! ## Claim C2: untrained-model and artifact-not-found errors -/

/-- C2: an untrained predictor (no stored model) gets the untrained-model
error from both `predict_proba` and `get_feature_importances`; and when the
artifact file is absent at the resolved path, `load` raises the not-found
error and returns the predictor state unchanged. -/
theorem untrained_and_not_found_errors (p : HorseRacePredictor)
    (hp : p._model = none) (df : DataFrame)
    (fs : String → Option ModelArtifact) (dirArg : Option String)
    (hfs : fs ((dirArg.getD p.model_dir) ++ "/" ++ _MODEL_FILENAME) = none) :
    predict_proba p df =
      .error "モデルが学習されていません。train() を先に呼び出してください。" ∧
    get_feature_importances p =
      .error "モデルが学習されていません。train() を先に呼び出してください。" ∧
    (load p fs dirArg).1 = p ∧
    (load p fs dirArg).2 =
      .error ("モデルファイルが見つかりません: " ++
        ((dirArg.getD p.model_dir) ++ "/" ++ _MODEL_FILENAME)) := by
  refine ⟨?_, ?_, ?_, ?_⟩ <;>
    simp [predict_proba, get_feature_importances, load, hp, hfs]

/-- Witness for `untrained_and_not_found_errors`: the freshly constructed
predictor and an empty filesystem. -/
theorem untrained_and_not_found_errors_witness :
    predict_proba HorseRacePredictor.init ⟨[]⟩ =
      .error "モデルが学習されていません。train() を先に呼び出してください。" ∧
    get_feature_importances HorseRacePredictor.init =
      .error "モデルが学習されていません。train() を先に呼び出してください。" ∧
    (load HorseRacePredictor.init (fun _ => none) none).1 = HorseRacePredictor.init ∧
    (load HorseRacePredictor.init (fun _ => none) none).2 =
      .error ("モデルファイルが見つかりません: " ++
        (((none : Option String)).getD HorseRacePredictor.init.model_dir ++ "/" ++
          _MODEL_FILENAME)) :=
  untrained_and_not_found_errors HorseRacePredictor.init rfl ⟨[]⟩
    (fun _ => none) none rfl

/-! ## Claim C8: save/load round trip -/

/-- C8: saving a trained predictor to a location and loading from that
location (into any predictor state `q`, the same or a fresh one) restores the
stored feature-column list exactly and makes `predict_proba` agree exactly
with the pre-save predictor on every table (probabilities are modelled as
exact rationals, so agreement within floating tolerance is exact equality
here). -/
theorem save_load_roundtrip (p q : HorseRacePredictor) (m : FittedModel)
    (hp : p._model = some m) (fs : String → Option ModelArtifact)
    (loc : String) (df : DataFrame) :
    ∃ fs', save p fs (some loc) = .ok fs' ∧
      (load q fs' (some loc)).2 = .ok () ∧
      ((load q fs' (some loc)).1)._feature_cols = p._feature_cols ∧
      predict_proba ((load q fs' (some loc)).1) df = predict_proba p df := by
  simp only [save, hp]
  refine ⟨_, rfl, ?_, ?_, ?_⟩ <;> simp [load, predict_proba, hp]

/-- Witness for `save_load_roundtrip` on a one-feature model and a concrete
table. -/
theorem save_load_roundtrip_witness :
    ∃ fs', save ⟨"models", 200, 42, some ⟨fun _ => [1 / 2], [1]⟩, ["age"]⟩
        (fun _ => none) (some "outdir") = .ok fs' ∧
      (load HorseRacePredictor.init fs' (some "outdir")).2 = .ok () ∧
      ((load HorseRacePredictor.init fs' (some "outdir")).1)._feature_cols =
        (⟨"models", 200, 42, some ⟨fun _ => [1 / 2], [1]⟩, ["age"]⟩ :
          HorseRacePredictor)._feature_cols ∧
      predict_proba (load HorseRacePredictor.init fs' (some "outdir")).1
          ⟨[("age", [Cell.num 4])]⟩ =
        predict_proba ⟨"models", 200, 42, some ⟨fun _ => [1 / 2], [1]⟩, ["age"]⟩
          ⟨[("age", [Cell.num 4])]⟩ :=
  save_load_roundtrip _ HorseRacePredictor.init ⟨fun _ => [1 / 2], [1]⟩ rfl
    (fun _ => none) "outdir" ⟨[("age", [Cell.num 4])]⟩

/-! ## Counterexamples for claims C3, C4, C5 -/

/-- C3 counterexample: a table that merely lacks the categorical column
`track_type` (all other enrichment sources may be present) makes
`preprocess` raise a `KeyError` instead of skipping the encoding, so the
missing categorical columns are required, not skipped. -/
theorem preprocess_missing_track_type_counterexample :
    preprocess ⟨[("track_condition", [Cell.cat "良"]), ("sex", [Cell.cat "牡"]),
      ("horse_weight", [Cell.num 500])]⟩ = .error "KeyError: track_type" := rfl

/-- C4 counterexample: on a table with `race_id` but without `horse_num` the
relative-ranking pass raises a `KeyError` (line 55 reads `horse_num`
unconditionally), so `build_features` returns no table at all rather than
preserving the input. -/
theorem build_features_missing_horse_num_counterexample :
    build_features ⟨[("race_id", [Cell.num 1])]⟩ =
      .error "KeyError: Column not found: horse_num" := rfl

/-- The two-row race used to refute the unrestricted C5 bound: one negative
recorded odds value. -/
def oddsNormCounterexampleDf : DataFrame :=
  ⟨[("race_id", [Cell.num 1, Cell.num 1]),
    ("horse_num", [Cell.num 1, Cell.num 2]),
    ("win_odds", [Cell.num (-2), Cell.num 4])]⟩

/-- A cell produced by `divVal` is never a token. -/
theorem isTok_divVal (a b : Cell) : isTok (divVal a b) = false := by
  cases a with
  | num x =>
    cases b with
    | num y =>
      show isTok (if y = 0 then Cell.na else Cell.num (x / y)) = false
      by_cases h : y = 0
      · rw [if_pos h]
        rfl
      · rw [if_neg h]
        rfl
    | na => rfl
    | cat s => rfl
  | na => cases b <;> rfl
  | cat s => cases b <;> rfl

/-- Mapping a token-free column through a function that introduces no token
keeps it token-free. -/
theorem hasTok_map (f : Cell → Cell) (v : List Cell)
    (hf : ∀ c, isTok c = false → isTok (f c) = false) (h : hasTok v = false) :
    hasTok (v.map f) = false := by
  induction v with
  | nil => rfl
  | cons c cs ih =>
    rw [hasTok, List.any_cons, Bool.or_eq_false_iff] at h
    rw [List.map_cons, hasTok, List.any_cons, Bool.or_eq_false_iff]
    exact ⟨hf c h.1, ih h.2⟩

theorem hasTok_replace0na (v : List Cell) (h : hasTok v = false) :
    hasTok (replace0na v) = false := by
  refine hasTok_map _ v ?_ h
  intro c hc
  show isTok (if c = Cell.num 0 then Cell.na else c) = false
  by_cases h0 : c = Cell.num 0
  · rw [if_pos h0]
    rfl
  · rw [if_neg h0]
    exact hc

theorem hasTok_fillna1 (v : List Cell) (h : hasTok v = false) :
    hasTok (fillna v (Cell.num 1)) = false := by
  refine hasTok_map _ v ?_ h
  intro c hc
  cases c with
  | na => rfl
  | num q => exact hc
  | cat s => exact hc

/-- A column whose cells all come from an index-dependent non-token
constructor is token-free. -/
theorem hasTok_map_eq_false (f : ℕ → Cell) (l : List ℕ)
    (hf : ∀ i, isTok (f i) = false) : hasTok (l.map f) = false := by
  induction l with
  | nil => rfl
  | cons i is ih =>
    rw [List.map_cons, hasTok, List.any_cons, hf i, Bool.false_or]
    exact ih

/-- A cell produced by `transformMaxVals` is never a token. -/
theorem hasTok_transformMaxVals (keys v : List Cell) :
    hasTok (transformMaxVals keys v) = false := by
  refine hasTok_map_eq_false _ _ ?_
  intro i
  rcases keys.getD i Cell.na with _ | y | t
  · rfl
  · rcases h : maxQ (groupNums keys v (Cell.num y)) with _ | m <;>
      simp [isTok, h]
  · rcases h : maxQ (groupNums keys v (Cell.cat t)) with _ | m <;>
      simp [isTok, h]

/-- A quotient column produced by `divVal` is token-free. -/
theorem hasTok_zipWith_divVal (a : List Cell) :
    ∀ b, hasTok (List.zipWith divVal a b) = false := by
  induction a with
  | nil => intro b; rfl
  | cons x xs ih =>
    intro b
    cases b with
    | nil => rfl
    | cons y ys =>
      rw [List.zipWith_cons_cons, hasTok, List.any_cons, isTok_divVal, Bool.false_or]
      exact ih ys

/-- The denominator column built at `engineering.py` line 40 holds no
token. -/
theorem hasTok_denom (keys v : List Cell) :
    hasTok (fillna (replace0na (transformMaxVals keys v)) (Cell.num 1)) = false :=
  hasTok_fillna1 _ (hasTok_replace0na _ (hasTok_transformMaxVals keys v))

/-- On a token-free column the grouped rank does not raise. -/
theorem rankMinBy_ok (asc : Bool) (keys vals : List Cell)
    (h : hasTok vals = false) :
    rankMinBy asc keys vals = .ok (rankVals asc keys vals) := by
  rw [rankMinBy, h]
  rfl

/-- On a token-free column the grouped maximum does not raise. -/
theorem transformMax_ok (keys vals : List Cell) (h : hasTok vals = false) :
    transformMax keys vals = .ok (transformMaxVals keys vals) := by
  rw [transformMax, h]
  rfl

/-- On a token-free column the grouped mean does not raise. -/
theorem transformMean_ok (keys vals : List Cell) (h : hasTok vals = false) :
    transformMean keys vals = .ok (transformMeanVals keys vals) := by
  rw [transformMean, h]
  rfl

/-- On token-free operands a cell division does not raise. -/
theorem cellDiv_ok (a b : Cell) (ha : isTok a = false) (hb : isTok b = false) :
    cellDiv a b = .ok (divVal a b) := by
  rw [cellDiv, ha, hb]
  rfl

/-- On token-free columns the element-wise division does not raise. -/
theorem zipDiv_ok (a : List Cell) :
    ∀ b, hasTok a = false → hasTok b = false →
      zipDiv a b = .ok (List.zipWith divVal a b) := by
  induction a with
  | nil => intro b _ _; cases b <;> rfl
  | cons x xs ih =>
    intro b ha hb
    cases b with
    | nil => rfl
    | cons y ys =>
      rw [hasTok, List.any_cons, Bool.or_eq_false_iff] at ha hb
      rw [List.zipWith_cons_cons]
      simp only [zipDiv, cellDiv_ok x y ha.1 hb.1, ih ys ha.2 hb.2]

/-- Membership in the names after a column assignment. -/
theorem DataFrame.mem_names_setCol (df : DataFrame) (c name : String)
    (v : List Cell) :
    c ∈ (df.setCol name v).names ↔ c ∈ df.names ∨ c = name := by
  rw [DataFrame.names_setCol]
  by_cases h : name ∈ df.names
  · rw [if_pos h]
    constructor
    · exact Or.inl
    · rintro (hc | rfl)
      · exact hc
      · exact h
  · rw [if_neg h]
    rw [List.mem_append, List.mem_singleton]

/-- The optional rank block succeeds on a token-free (or absent) column and
at most appends `newname`, preserving every other column and name. -/
theorem optRankBlock_getCol (keys : List Cell) (cname newname : String)
    (asc : Bool) (mid : DataFrame)
    (hnt : ∀ w, mid.getCol cname = some w → hasTok w = false) :
    ∃ X, optRankBlock keys cname newname asc mid = .ok X ∧
      (∀ c, c ≠ newname → X.getCol c = mid.getCol c) ∧
      (∀ c, c ≠ newname → (c ∈ X.names ↔ c ∈ mid.names)) := by
  by_cases hc : cname ∈ mid.names
  · obtain ⟨w, hw⟩ := Option.isSome_iff_exists.mp
      ((mid.getCol_isSome_iff cname).mpr hc)
    have e1 : rankMinBy asc keys w = .ok (rankVals asc keys w) :=
      rankMinBy_ok _ _ _ (hnt w hw)
    rw [optRankBlock, if_pos hc, hw]
    simp only [Option.getD_some, e1]
    refine ⟨_, rfl, ?_, ?_⟩
    · intro c hcn
      exact DataFrame.getCol_setCol_ne _ _ _ _ hcn
    · intro c hcn
      rw [DataFrame.mem_names_setCol]
      constructor
      · rintro (h | rfl)
        · exact h
        · exact absurd rfl hcn
      · exact Or.inl
  · rw [optRankBlock, if_neg hc]
    exact ⟨mid, rfl, fun c _ => rfl, fun c _ => Iff.rfl⟩

/-- When `win_odds` is present and token-free, the odds block succeeds and
appends the odds rank and the normalized odds. -/
theorem oddsBlock_ok (keys : List Cell) (df : DataFrame) (v : List Cell)
    (hv : df.getCol "win_odds" = some v) (htok : hasTok v = false) :
    oddsBlock keys df =
      .ok ((df.setCol "odds_rank_in_race" (rankVals true keys v)).setCol "odds_norm"
        (List.zipWith divVal v
          (fillna (replace0na (transformMaxVals keys v)) (Cell.num 1)))) := by
  have hw : "win_odds" ∈ df.names :=
    (df.getCol_isSome_iff "win_odds").mp (by rw [hv]; rfl)
  have e1 : rankMinBy true keys v = .ok (rankVals true keys v) :=
    rankMinBy_ok _ _ _ htok
  have e2 : transformMax keys v = .ok (transformMaxVals keys v) :=
    transformMax_ok _ _ htok
  have e3 : zipDiv v (fillna (replace0na (transformMaxVals keys v)) (Cell.num 1)) =
      .ok (List.zipWith divVal v
        (fillna (replace0na (transformMaxVals keys v)) (Cell.num 1))) :=
    zipDiv_ok _ _ htok (hasTok_denom keys v)
  simp only [oddsBlock]
  rw [if_pos hw]
  simp only [hv, Option.getD_some, e1, e2, e3]

/-- Without `win_odds` the odds block is a no-op. -/
theorem oddsBlock_skip (keys : List Cell) (df : DataFrame)
    (hw : "win_odds" ∉ df.names) : oddsBlock keys df = .ok df := by
  rw [oddsBlock, if_neg hw]

/-- Characterization of the relative-ranking pass when `race_id`, `win_odds`
and `horse_num` are present, `win_odds` is token-free (a token would make
the rank at line 35 raise) and the two other ranked columns are token-free
wherever present: the pass succeeds, and the produced `odds_norm` column is
`win_odds` divided element-wise by the race maximum, where a zero (or
missing) maximum is replaced by 1. -/
theorem add_race_relative_features_odds_norm (df : DataFrame)
    (hr : "race_id" ∈ df.names)
    (v : List Cell) (hvv : df.getCol "win_odds" = some v)
    (htokv : hasTok v = false)
    (hv : List Cell) (hhn : df.getCol "horse_num" = some hv)
    (hhwTok : ∀ w, df.getCol "horse_weight" = some w → hasTok w = false)
    (hjwTok : ∀ w, df.getCol "jockey_win_rate" = some w → hasTok w = false) :
    ∃ out, add_race_relative_features df = .ok out ∧
      out.getCol "odds_norm" =
        some (List.zipWith divVal v
          (fillna (replace0na (transformMaxVals ((df.getCol "race_id").getD []) v))
            (Cell.num 1))) := by
  simp only [add_race_relative_features]
  rw [if_neg (not_not_intro hr)]
  rw [oddsBlock_ok ((df.getCol "race_id").getD []) df v hvv htokv]
  simp only [bindE]
  obtain ⟨X2, hX2, hX2get, _⟩ := optRankBlock_getCol
    ((df.getCol "race_id").getD []) "horse_weight" "weight_rank_in_race" false
    ((df.setCol "odds_rank_in_race"
        (rankVals true ((df.getCol "race_id").getD []) v)).setCol "odds_norm"
      (List.zipWith divVal v
        (fillna (replace0na (transformMaxVals ((df.getCol "race_id").getD []) v))
          (Cell.num 1))))
    (by intro w hwcol
        rw [DataFrame.getCol_setCol_ne _ _ _ _ (by decide),
          DataFrame.getCol_setCol_ne _ _ _ _ (by decide)] at hwcol
        exact hhwTok w hwcol)
  rw [hX2]
  simp only [bindE]
  obtain ⟨X3, hX3, hX3get, _⟩ := optRankBlock_getCol
    ((df.getCol "race_id").getD []) "jockey_win_rate" "jockey_rank_in_race" false X2
    (by intro w hwcol
        rw [hX2get "jockey_win_rate" (by decide),
          DataFrame.getCol_setCol_ne _ _ _ _ (by decide),
          DataFrame.getCol_setCol_ne _ _ _ _ (by decide)] at hwcol
        exact hjwTok w hwcol)
  rw [hX3]
  simp only [bindE]
  have hX3hn : X3.getCol "horse_num" = some hv := by
    rw [hX3get "horse_num" (by decide), hX2get "horse_num" (by decide),
      DataFrame.getCol_setCol_ne _ _ _ _ (by decide),
      DataFrame.getCol_setCol_ne _ _ _ _ (by decide), hhn]
  simp only [hX3hn]
  refine ⟨_, rfl, ?_⟩
  rw [DataFrame.getCol_setCol_ne _ _ _ _ (by decide),
    hX3get "odds_norm" (by decide), hX2get "odds_norm" (by decide),
    DataFrame.getCol_setCol_self]

/-- C5 counterexample: with a negative `win_odds` value the produced
`odds_norm` contains the non-missing value -1/2, which lies outside
`[0, 1]`; the claim bound does not hold for every input table. -/
theorem odds_norm_counterexample :
    ((add_race_relative_features oddsNormCounterexampleDf).toOption.bind fun d =>
        d.getCol "odds_norm") = some [Cell.num (-(1 / 2)), Cell.num 1] ∧
      ¬(0 ≤ (-(1 / 2) : ℚ)) := by
  obtain ⟨out, hout, hcol⟩ := add_race_relative_features_odds_norm
    oddsNormCounterexampleDf (by decide)
    [Cell.num (-2), Cell.num 4] rfl rfl
    [Cell.num 1, Cell.num 2] rfl
    (by intro w h; cases h) (by intro w h; cases h)
  refine ⟨?_, by norm_num⟩
  have e2 : (oddsNormCounterexampleDf.getCol "race_id").getD [] =
      [Cell.num 1, Cell.num 1] := rfl
  rw [e2] at hcol
  have e3 : transformMaxVals [Cell.num 1, Cell.num 1] [Cell.num (-2), Cell.num 4] =
      [Cell.num 4, Cell.num 4] := by
    norm_num [transformMaxVals, groupNums, cellNums, maxQ, max2, List.range_succ,
      List.range_zero, List.filterMap_cons, List.filterMap_nil, List.map_cons,
      List.map_nil, List.getD_cons_zero, List.getD_cons_succ, List.foldl_cons,
      List.foldl_nil, List.length_cons, List.length_nil]
  rw [e3] at hcol
  have e4 : fillna (replace0na [Cell.num 4, Cell.num 4]) (Cell.num 1) =
      [Cell.num 4, Cell.num 4] := by
    norm_num [fillna, replace0na]
  rw [e4] at hcol
  have e5 : List.zipWith divVal [Cell.num (-2), Cell.num 4] [Cell.num 4, Cell.num 4] =
      [Cell.num (-(1 / 2)), Cell.num 1] := by
    norm_num [divVal, List.zipWith]
  rw [e5] at hcol
  rw [hout]
  simp only [Except.toOption, Option.bind, hcol]

end Keiba

namespace Keiba

/-! ## Claim C5 (amended): the odds-normalization bound -/

theorem le_max2_left (a b : ℚ) : a ≤ max2 a b := by
  unfold max2
  by_cases h : a ≤ b
  · simp only [if_pos h]
    exact h
  · simp [h]

theorem le_max2_right (a b : ℚ) : b ≤ max2 a b := by
  unfold max2
  by_cases h : a ≤ b
  · simp [h]
  · simp only [if_neg h]
    linarith [not_le.mp h]

theorem le_foldl_max2 (xs : List ℚ) (a : ℚ) : a ≤ xs.foldl max2 a := by
  induction xs generalizing a with
  | nil => simp
  | cons y ys ih =>
    calc a ≤ max2 a y := le_max2_left a y
    _ ≤ ys.foldl max2 (max2 a y) := ih (max2 a y)

theorem mem_le_foldl_max2 (xs : List ℚ) (a x : ℚ) : x ∈ xs → x ≤ xs.foldl max2 a := by
  induction xs generalizing a with
  | nil => intro hx; simp at hx
  | cons y ys ih =>
    intro hx
    rcases List.mem_cons.mp hx with rfl | hx
    · calc x ≤ max2 a x := le_max2_right a x
      _ ≤ ys.foldl max2 (max2 a x) := le_foldl_max2 ys (max2 a x)
    · exact ih (max2 a y) hx

theorem maxQ_le_of_mem (l : List ℚ) (m x : ℚ) (hm : maxQ l = some m) (hx : x ∈ l) :
    x ≤ m := by
  match l, hm with
  | y :: ys, hm =>
    simp only [maxQ, Option.some_inj] at hm
    subst hm
    rcases List.mem_cons.mp hx with rfl | hx
    · exact le_foldl_max2 ys x
    · exact mem_le_foldl_max2 ys y x hx


theorem maxQ_isSome (l : List ℚ) (h : l ≠ []) : ∃ m, maxQ l = some m := by
  match l, h with
  | y :: ys, _ => exact ⟨_, rfl⟩

theorem mem_groupNums (keys v : List Cell) (i : ℕ) (x : ℚ) (hi : i < v.length)
    (hx : v.getD i Cell.na = Cell.num x) :
    x ∈ groupNums keys v (keys.getD i Cell.na) := by
  unfold groupNums cellNums
  apply List.mem_filterMap.mpr
  refine ⟨v.getD i Cell.na, ?_, by rw [hx]⟩
  apply List.mem_filterMap.mpr
  exact ⟨i, List.mem_range.mpr hi, by simp⟩

end Keiba

namespace Keiba

theorem getD_map_of_lt (f : Cell → Cell) (l : List Cell) (i : ℕ) (hi : i < l.length) :
    (l.map f).getD i Cell.na = f (l.getD i Cell.na) := by
  simp [List.getD_eq_getElem?_getD, List.getElem?_map, List.getElem?_eq_getElem, hi]

theorem getD_zipWith_of_lt (f : Cell → Cell → Cell) (a b : List Cell) (i : ℕ)
    (ha : i < a.length) (hb : i < b.length) :
    (List.zipWith f a b).getD i Cell.na = f (a.getD i Cell.na) (b.getD i Cell.na) := by
  simp [List.getD_eq_getElem?_getD, List.getElem?_zipWith, List.getElem?_eq_getElem, ha, hb]

theorem getD_eq_getElem_of_lt (l : List Cell) (i : ℕ) (hi : i < l.length) :
    l.getD i Cell.na = l.get ⟨i, hi⟩ := by
  simp [List.getD_eq_getElem?_getD, List.getElem?_eq_getElem, hi]

theorem transformMaxVals_length (keys v : List Cell) :
    (transformMaxVals keys v).length = v.length := by
  simp [transformMaxVals]

theorem transformMaxVals_getD (keys v : List Cell) (i : ℕ) (hi : i < v.length) :
    (transformMaxVals keys v).getD i Cell.na =
      (match keys.getD i Cell.na with
       | Cell.na => Cell.na
       | k =>
         match maxQ (groupNums keys v k) with
         | some m => Cell.num m
         | none => Cell.na) := by
  unfold transformMaxVals
  rw [List.getD_eq_getElem?_getD, List.getElem?_map,
    List.getElem?_range (by simpa using hi)]
  rfl

/-- C5 (amended): on a table with `race_id`, `win_odds` and `horse_num`
columns whose race ids are non-missing, whose recorded odds are non-negative
(or missing), and whose `horse_weight` and `jockey_win_rate` columns, when
present, hold no non-numeric token (a token makes the grouped rank raise
`TypeError` before any `odds_norm` is returned), the relative-ranking pass
succeeds, `odds_norm` is `win_odds` divided element-wise by the race maximum
with a zero or missing maximum replaced by 1, and every non-missing
`odds_norm` value lies in `[0, 1]`. -/
theorem odds_norm_in_unit_interval (df : DataFrame) (keys v hv : List Cell)
    (hkeys : df.getCol "race_id" = some keys) (hvv : df.getCol "win_odds" = some v)
    (hhn : df.getCol "horse_num" = some hv) (hlen : keys.length = v.length)
    (hknona : ∀ c ∈ keys, c ≠ Cell.na)
    (hnn : ∀ c ∈ v, c = Cell.na ∨ ∃ q, c = Cell.num q ∧ 0 ≤ q)
    (hhwTok : ∀ w, df.getCol "horse_weight" = some w → hasTok w = false)
    (hjwTok : ∀ w, df.getCol "jockey_win_rate" = some w → hasTok w = false) :
    ∃ out, add_race_relative_features df = .ok out ∧
      ∃ w, out.getCol "odds_norm" = some w ∧
        w = List.zipWith divVal v
          (fillna (replace0na (transformMaxVals keys v)) (Cell.num 1)) ∧
        ∀ i, i < w.length →
          w.getD i Cell.na = Cell.na ∨
            ∃ x, w.getD i Cell.na = Cell.num x ∧ 0 ≤ x ∧ x ≤ 1 := by
  have hr : "race_id" ∈ df.names :=
    (df.getCol_isSome_iff "race_id").mp (by rw [hkeys]; rfl)
  have htokv : hasTok v = false := by
    rw [hasTok, List.any_eq_false]
    intro c hc
    rcases hnn c hc with rfl | ⟨q, rfl, _⟩ <;> simp [isTok]
  obtain ⟨out, hout, hcol⟩ := add_race_relative_features_odds_norm df hr
    v hvv htokv hv hhn hhwTok hjwTok
  rw [hkeys] at hcol
  simp only [Option.getD_some] at hcol
  refine ⟨out, hout, _, hcol, rfl, ?_⟩
  set denom := fillna (replace0na (transformMaxVals keys v)) (Cell.num 1) with hdenom
  have hdlen : denom.length = v.length := by
    simp [hdenom, fillna, replace0na, transformMaxVals]
  intro i hi
  rw [List.length_zipWith, hdlen, Nat.min_self] at hi
  have hwi : (List.zipWith divVal v denom).getD i Cell.na =
      divVal (v.getD i Cell.na) (denom.getD i Cell.na) :=
    getD_zipWith_of_lt _ _ _ _ hi (hdlen ▸ hi)
  rcases hcell : v.getD i Cell.na with _ | x | s
  · left
    rw [hwi, hcell]
    rcases denom.getD i Cell.na with _ | y | t <;> rfl
  · -- numeric odds value
    have hx0 : 0 ≤ x := by
      have hmem : v.getD i Cell.na ∈ v := by
        rw [getD_eq_getElem_of_lt v i hi]
        exact List.get_mem v _ _
      rcases hnn _ hmem with hna | ⟨q, hq, hq0⟩
      · rw [hcell] at hna; cases hna
      · rw [hcell] at hq
        cases hq
        exact hq0
    have hik : i < keys.length := by rw [hlen]; exact hi
    have hkne : keys.getD i Cell.na ≠ Cell.na := by
      rw [getD_eq_getElem_of_lt keys i hik]
      exact hknona _ (List.get_mem keys _ _)
    have hxg : x ∈ groupNums keys v (keys.getD i Cell.na) :=
      mem_groupNums keys v i x hi hcell
    obtain ⟨m, hm⟩ := maxQ_isSome _ (List.ne_nil_of_mem hxg)
    have hxm : x ≤ m := maxQ_le_of_mem _ _ _ hm hxg
    have h0m : 0 ≤ m := le_trans hx0 hxm
    have htm : (transformMaxVals keys v).getD i Cell.na = Cell.num m := by
      rw [transformMaxVals_getD keys v i hi]
      rcases hkc : keys.getD i Cell.na with _ | y | t
      · exact absurd hkc hkne
      · rw [hkc] at hm
        simp [hm]
      · rw [hkc] at hm
        simp [hm]
    have hdi : i < (replace0na (transformMaxVals keys v)).length := by
      simp [replace0na, transformMaxVals]
      exact hi
    by_cases hm0 : m = 0
    · have hden : denom.getD i Cell.na = Cell.num 1 := by
        rw [hdenom]
        unfold fillna replace0na
        rw [getD_map_of_lt _ _ _ (by simpa [replace0na, transformMaxVals] using hi),
          getD_map_of_lt _ _ _ (by simpa [transformMaxVals] using hi), htm]
        simp [hm0]
      right
      refine ⟨x, ?_, hx0, ?_⟩
      · rw [hwi, hcell, hden]
        simp [divVal]
      · have : x ≤ 0 := hm0 ▸ hxm
        linarith
    · have hmpos : 0 < m := lt_of_le_of_ne h0m (Ne.symm hm0)
      have hden : denom.getD i Cell.na = Cell.num m := by
        rw [hdenom]
        unfold fillna replace0na
        rw [getD_map_of_lt _ _ _ (by simpa [replace0na, transformMaxVals] using hi),
          getD_map_of_lt _ _ _ (by simpa [transformMaxVals] using hi), htm]
        simp [hm0]
      right
      refine ⟨x / m, ?_, ?_, ?_⟩
      · rw [hwi, hcell, hden]
        simp [divVal, hm0]
      · exact div_nonneg hx0 h0m
      · exact (div_le_one hmpos).mpr hxm
  · -- non-numeric token: the division result is missing
    left
    rw [hwi, hcell]
    rcases denom.getD i Cell.na with _ | y | t <;> rfl

end Keiba

namespace Keiba

/-- Witness for `odds_norm_in_unit_interval` on a concrete two-horse race
with positive odds. -/
theorem odds_norm_in_unit_interval_witness :
    ∃ out, add_race_relative_features
        ⟨[("race_id", [Cell.num 1, Cell.num 1]),
          ("horse_num", [Cell.num 1, Cell.num 2]),
          ("win_odds", [Cell.num 2, Cell.num 4])]⟩ = .ok out ∧
      ∃ w, out.getCol "odds_norm" = some w ∧
        w = List.zipWith divVal [Cell.num 2, Cell.num 4]
          (fillna (replace0na (transformMaxVals [Cell.num 1, Cell.num 1]
            [Cell.num 2, Cell.num 4])) (Cell.num 1)) ∧
        ∀ i, i < w.length →
          w.getD i Cell.na = Cell.na ∨
            ∃ x, w.getD i Cell.na = Cell.num x ∧ 0 ≤ x ∧ x ≤ 1 :=
  odds_norm_in_unit_interval
    ⟨[("race_id", [Cell.num 1, Cell.num 1]),
      ("horse_num", [Cell.num 1, Cell.num 2]),
      ("win_odds", [Cell.num 2, Cell.num 4])]⟩
    [Cell.num 1, Cell.num 1] [Cell.num 2, Cell.num 4] [Cell.num 1, Cell.num 2]
    rfl rfl rfl rfl
    (by intro c hc; rcases List.mem_cons.mp hc with rfl | hc
        · intro h; cases h
        · rcases List.mem_cons.mp hc with rfl | hc
          · intro h; cases h
          · simp at hc)
    (by intro c hc; rcases List.mem_cons.mp hc with rfl | hc
        · exact Or.inr ⟨2, rfl, by norm_num⟩
        · rcases List.mem_cons.mp hc with rfl | hc
          · exact Or.inr ⟨4, rfl, by norm_num⟩
          · simp at hc)
    (by intro w h; cases h) (by intro w h; cases h)

end Keiba

namespace Keiba

/-! ## Claim C3 (amended): which missing columns are skipped by `preprocess` -/

theorem getCol_imputeStep_ne (df : DataFrame) (col c : String) (h : c ≠ col) :
    (imputeStep df col).getCol c = df.getCol c := by
  unfold imputeStep
  cases hg : df.getCol col
  · rfl
  · exact DataFrame.getCol_setCol_ne _ _ _ _ h

theorem getCol_foldl_imputeStep_ne (l : List String) (df : DataFrame) (c : String)
    (hc : c ∉ l) : (l.foldl imputeStep df).getCol c = df.getCol c := by
  induction l generalizing df with
  | nil => rfl
  | cons col rest ih =>
    rw [List.foldl_cons, ih _ (fun h => hc (List.mem_cons_of_mem _ h)),
      getCol_imputeStep_ne _ _ _ (fun h => hc (by rw [h]; exact List.mem_cons_self _ _))]

theorem mapExcept_ok_of_noTok (f : Cell → Except String Cell)
    (hf : ∀ c, (∀ s, c ≠ Cell.cat s) → ∃ c', f c = .ok c')
    (v : List Cell) (hv : ∀ s, Cell.cat s ∉ v) :
    ∃ v', mapExcept f v = .ok v' := by
  induction v with
  | nil => exact ⟨[], rfl⟩
  | cons c rest ih =>
    obtain ⟨c', hc'⟩ := hf c (fun s h => hv s (by rw [← h]; exact List.mem_cons_self _ _))
    obtain ⟨rest', hrest'⟩ := ih (fun s h => hv s (List.mem_cons_of_mem _ h))
    exact ⟨c' :: rest', by simp [mapExcept, hc', hrest']⟩

theorem divCellBy_ok (q : ℚ) (c : Cell) (h : ∀ s, c ≠ Cell.cat s) :
    ∃ c', divCellBy q c = .ok c' := by
  cases c with
  | na => exact ⟨Cell.na, rfl⟩
  | num x => exact ⟨Cell.num (x / q), rfl⟩
  | cat s => exact absurd rfl (h s)

theorem leThreeCell_ok (c : Cell) (h : ∀ s, c ≠ Cell.cat s) :
    ∃ c', leThreeCell c = .ok c' := by
  cases c with
  | na => exact ⟨Cell.num 0, rfl⟩
  | num x => exact ⟨Cell.num (if x ≤ 3 then 1 else 0), rfl⟩
  | cat s => exact absurd rfl (h s)

/-- C3 (amended): `preprocess` skips the numeric feature columns, `distance`
and `finish_position` when they are absent (it still succeeds), but the three
categorical columns `track_type`, `track_condition` and `sex` are required:
`preprocess` succeeds exactly when all three are present (on inputs whose
present `distance` and `finish_position` columns carry no non-numeric
token). -/
theorem preprocess_ok_iff (df : DataFrame)
    (hdist : ∀ v, df.getCol "distance" = some v → ∀ s, Cell.cat s ∉ v)
    (hfin : ∀ v, df.getCol "finish_position" = some v → ∀ s, Cell.cat s ∉ v) :
    (∃ out, preprocess df = .ok out) ↔
      ("track_type" ∈ df.names ∧ "track_condition" ∈ df.names ∧
        "sex" ∈ df.names) := by
  constructor
  · rintro ⟨out, hout⟩
    rcases hg1 : df.getCol "track_type" with _ | tt
    · simp only [preprocess, hg1] at hout
      cases hout
    have h1 : "track_type" ∈ df.names :=
      (df.getCol_isSome_iff "track_type").mp (by rw [hg1]; rfl)
    simp only [preprocess, hg1] at hout
    rcases hg2 : (df.setCol "track_type_enc"
        (tt.map (mapEncode TRACK_TYPE_MAP))).getCol "track_condition" with _ | tc
    · simp only [hg2] at hout
      cases hout
    have h2 : "track_condition" ∈ df.names := by
      rw [DataFrame.getCol_setCol_ne _ _ _ _ (by decide)] at hg2
      exact (df.getCol_isSome_iff "track_condition").mp (by rw [hg2]; rfl)
    simp only [hg2] at hout
    rcases hg3 : ((df.setCol "track_type_enc"
        (tt.map (mapEncode TRACK_TYPE_MAP))).setCol "track_condition_enc"
        (tc.map (mapEncode TRACK_CONDITION_MAP))).getCol "sex" with _ | sx
    · simp only [hg3] at hout
      cases hout
    have h3 : "sex" ∈ df.names := by
      rw [DataFrame.getCol_setCol_ne _ _ _ _ (by decide),
        DataFrame.getCol_setCol_ne _ _ _ _ (by decide)] at hg3
      exact (df.getCol_isSome_iff "sex").mp (by rw [hg3]; rfl)
    exact ⟨h1, h2, h3⟩
  · rintro ⟨h1, h2, h3⟩
    obtain ⟨tt, hg1⟩ := Option.isSome_iff_exists.mp
      ((df.getCol_isSome_iff "track_type").mpr h1)
    have hg2' : df.getCol "track_condition" ≠ none :=
      fun h => ((df.getCol_eq_none_iff "track_condition").mp h) h2
    obtain ⟨tc, hg2⟩ := Option.ne_none_iff_exists'.mp hg2'
    have hg3' : df.getCol "sex" ≠ none :=
      fun h => ((df.getCol_eq_none_iff "sex").mp h) h3
    obtain ⟨sx, hg3⟩ := Option.ne_none_iff_exists'.mp hg3'
    have e2 : (df.setCol "track_type_enc"
        (tt.map (mapEncode TRACK_TYPE_MAP))).getCol "track_condition" = some tc := by
      rw [DataFrame.getCol_setCol_ne _ _ _ _ (by decide)]
      exact hg2
    have e3 : ((df.setCol "track_type_enc"
        (tt.map (mapEncode TRACK_TYPE_MAP))).setCol "track_condition_enc"
        (tc.map (mapEncode TRACK_CONDITION_MAP))).getCol "sex" = some sx := by
      rw [DataFrame.getCol_setCol_ne _ _ _ _ (by decide),
        DataFrame.getCol_setCol_ne _ _ _ _ (by decide)]
      exact hg3
    simp only [preprocess, hg1, e2, e3]
    set df3 := ((df.setCol "track_type_enc"
      (tt.map (mapEncode TRACK_TYPE_MAP))).setCol "track_condition_enc"
      (tc.map (mapEncode TRACK_CONDITION_MAP))).setCol "sex_enc"
      (sx.map (mapEncode SEX_MAP)) with hdf3
    set df4 := numeric_cols.foldl imputeStep df3 with hdf4
    have edist : df4.getCol "distance" = df.getCol "distance" := by
      rw [hdf4, getCol_foldl_imputeStep_ne _ _ _ (by decide), hdf3,
        DataFrame.getCol_setCol_ne _ _ _ _ (by decide),
        DataFrame.getCol_setCol_ne _ _ _ _ (by decide),
        DataFrame.getCol_setCol_ne _ _ _ _ (by decide)]
    have efin : df4.getCol "finish_position" = df.getCol "finish_position" := by
      rw [hdf4, getCol_foldl_imputeStep_ne _ _ _ (by decide), hdf3,
        DataFrame.getCol_setCol_ne _ _ _ _ (by decide),
        DataFrame.getCol_setCol_ne _ _ _ _ (by decide),
        DataFrame.getCol_setCol_ne _ _ _ _ (by decide)]
    rcases hgd : df.getCol "distance" with _ | dv
    · simp only [edist.trans hgd]
      rcases hgf : df.getCol "finish_position" with _ | fv
      · simp only [efin.trans hgf]
        exact ⟨df4, rfl⟩
      · have efin6 : (df4.setCol "is_win" (fv.map eqOneCell)).getCol
            "finish_position" = some fv := by
          rw [DataFrame.getCol_setCol_ne _ _ _ _ (by decide)]
          exact efin.trans hgf
        simp only [efin.trans hgf, efin6]
        obtain ⟨fv', hfv'⟩ := mapExcept_ok_of_noTok leThreeCell
          (fun c h => leThreeCell_ok c h) fv (hfin fv hgf)
        simp only [hfv']
        exact ⟨_, rfl⟩
    · simp only [edist.trans hgd]
      obtain ⟨dv', hdv'⟩ := mapExcept_ok_of_noTok (divCellBy 1000)
        (fun c h => divCellBy_ok 1000 c h) dv (hdist dv hgd)
      simp only [hdv']
      have efin5 : (df4.setCol "distance_km" dv').getCol "finish_position" =
          df.getCol "finish_position" := by
        rw [DataFrame.getCol_setCol_ne _ _ _ _ (by decide)]
        exact efin
      rcases hgf : df.getCol "finish_position" with _ | fv
      · simp only [efin5.trans hgf]
        exact ⟨_, rfl⟩
      · have efin6 : ((df4.setCol "distance_km" dv').setCol "is_win"
            (fv.map eqOneCell)).getCol "finish_position" = some fv := by
          rw [DataFrame.getCol_setCol_ne _ _ _ _ (by decide)]
          exact efin5.trans hgf
        simp only [efin5.trans hgf, efin6]
        obtain ⟨fv', hfv'⟩ := mapExcept_ok_of_noTok leThreeCell
          (fun c h => leThreeCell_ok c h) fv (hfin fv hgf)
        simp only [hfv']
        exact ⟨_, rfl⟩

end Keiba

namespace Keiba

/-! ## Claim C6: no missing values in the declared feature columns -/

theorem imputeStep_getCol_self (df : DataFrame) (col : String) :
    (imputeStep df col).getCol col =
      (df.getCol col).map fun v =>
        fillna (v.map toNumericCell) (medianCell (v.map toNumericCell)) := by
  unfold imputeStep
  cases hg : df.getCol col
  · simp [hg]
  · simp [hg, DataFrame.getCol_setCol_self]

theorem getCol_foldl_imputeStep_mem (l : List String) (df : DataFrame) (c : String)
    (hnd : l.Nodup) (hc : c ∈ l) :
    (l.foldl imputeStep df).getCol c =
      (df.getCol c).map fun v =>
        fillna (v.map toNumericCell) (medianCell (v.map toNumericCell)) := by
  induction l generalizing df with
  | nil => simp at hc
  | cons col rest ih =>
    rw [List.foldl_cons]
    rcases List.mem_cons.mp hc with rfl | hc
    · rw [getCol_foldl_imputeStep_ne rest _ _ (List.nodup_cons.mp hnd).1,
        imputeStep_getCol_self]
    · rw [ih _ (List.nodup_cons.mp hnd).2 hc,
        getCol_imputeStep_ne _ _ _
          (fun h => (List.nodup_cons.mp hnd).1 (by rw [← h]; exact hc))]

theorem toNumericCell_na_or_num (c : Cell) :
    toNumericCell c = Cell.na ∨ ∃ q, toNumericCell c = Cell.num q := by
  cases c with
  | na => exact Or.inl rfl
  | num q => exact Or.inr ⟨q, rfl⟩
  | cat s => exact Or.inl rfl

theorem sortQ_length (l : List ℚ) : (sortQ l).length = l.length := by
  have hins : ∀ (x : ℚ) (s : List ℚ), (insortQ x s).length = s.length + 1 := by
    intro x s
    induction s with
    | nil => rfl
    | cons y ys ih =>
      unfold insortQ
      by_cases h : x ≤ y
      · simp [h]
      · simp [h, ih]
  unfold sortQ
  induction l with
  | nil => rfl
  | cons x xs ih => simp [List.foldr_cons, hins, ih]

theorem medianCell_ne_na (v : List Cell) (h : cellNums v ≠ []) :
    medianCell v ≠ Cell.na := by
  unfold medianCell
  have hlen : (sortQ (cellNums v)).length ≠ 0 := by
    rw [sortQ_length]
    exact fun h0 => h (List.length_eq_zero.mp h0)
  simp only [hlen, if_false]
  by_cases hodd : (sortQ (cellNums v)).length % 2 = 1
  · simp [hodd]
  · simp [hodd]

theorem fillna_no_na (v : List Cell) (x : Cell) (hx : x ≠ Cell.na) :
    Cell.na ∉ fillna v x := by
  intro hmem
  unfold fillna at hmem
  obtain ⟨c, _, hc⟩ := List.mem_map.mp hmem
  cases c with
  | na => exact hx hc
  | num q => exact Cell.noConfusion hc
  | cat s => exact Cell.noConfusion hc

theorem imputed_no_na (v : List Cell) (h : cellNums (v.map toNumericCell) ≠ []) :
    Cell.na ∉ fillna (v.map toNumericCell) (medianCell (v.map toNumericCell)) :=
  fillna_no_na _ _ (medianCell_ne_na _ h)

theorem mapEncode_ne_na (m : List (String × ℤ)) (c : Cell) :
    mapEncode m c ≠ Cell.na := by
  cases c with
  | na => exact Cell.noConfusion
  | num q => exact Cell.noConfusion
  | cat s =>
    unfold mapEncode
    cases hl : m.lookup s <;> simp [hl]

theorem na_notMem_map_mapEncode (m : List (String × ℤ)) (v : List Cell) :
    Cell.na ∉ v.map (mapEncode m) := by
  intro hmem
  obtain ⟨c, _, hc⟩ := List.mem_map.mp hmem
  exact mapEncode_ne_na m c hc

theorem mapExcept_divCellBy_all_num (q : ℚ) (v : List Cell)
    (h : ∀ c ∈ v, cellIsNum c = true) :
    mapExcept (divCellBy q) v = .ok (v.map fun c => Cell.num (cellQ c / q)) := by
  induction v with
  | nil => rfl
  | cons c rest ih =>
    have hc := h c (List.mem_cons_self _ _)
    cases c with
    | na => simp [cellIsNum] at hc
    | cat s => simp [cellIsNum] at hc
    | num x =>
      rw [List.map_cons]
      unfold mapExcept
      rw [ih (fun c hm => h c (List.mem_cons_of_mem _ hm))]
      rfl

theorem na_notMem_all_num (v : List Cell) (h : ∀ c ∈ v, cellIsNum c = true) :
    Cell.na ∉ v := by
  intro hmem
  have := h _ hmem
  simp [cellIsNum] at this

end Keiba


namespace Keiba

theorem na_notMem_map_num (g : Cell → ℚ) (v : List Cell) :
    Cell.na ∉ v.map fun c => Cell.num (g c) := by
  intro hmem
  obtain ⟨c, _, hc⟩ := List.mem_map.mp hmem
  exact Cell.noConfusion hc

/-- C6: on a schema-conforming input (categorical columns present, `distance`
present and numeric, `post_position` numeric when present, every present
numeric feature column containing at least one numeric value, and
`finish_position` free of non-numeric tokens), `preprocess` succeeds and the
returned table has no missing value in any declared feature column: the
numeric feature columns are median-imputed and the categorical encodings are
always numeric, with unknown categories mapped to the sentinel -1 rather
than to missing. -/
theorem preprocess_no_missing (df : DataFrame)
    (h1 : "track_type" ∈ df.names) (h2 : "track_condition" ∈ df.names)
    (h3 : "sex" ∈ df.names)
    (dv : List Cell) (hd : df.getCol "distance" = some dv)
    (hdv : ∀ c ∈ dv, cellIsNum c = true)
    (hpp : ∀ v, df.getCol "post_position" = some v → ∀ c ∈ v, cellIsNum c = true)
    (hnum : ∀ col ∈ numeric_cols, ∀ v, df.getCol col = some v →
      cellNums (v.map toNumericCell) ≠ [])
    (hfin : ∀ v, df.getCol "finish_position" = some v → ∀ s, Cell.cat s ∉ v) :
    ∃ out, preprocess df = .ok out ∧
      (∀ c ∈ get_feature_columns, ∀ v, out.getCol c = some v → Cell.na ∉ v) ∧
      (∀ s, TRACK_TYPE_MAP.lookup s = none →
        mapEncode TRACK_TYPE_MAP (Cell.cat s) = Cell.num (-1)) ∧
      (∀ s, TRACK_CONDITION_MAP.lookup s = none →
        mapEncode TRACK_CONDITION_MAP (Cell.cat s) = Cell.num (-1)) ∧
      (∀ s, SEX_MAP.lookup s = none →
        mapEncode SEX_MAP (Cell.cat s) = Cell.num (-1)) := by
  obtain ⟨tt, hg1⟩ := Option.isSome_iff_exists.mp
    ((df.getCol_isSome_iff "track_type").mpr h1)
  obtain ⟨tc, hg2⟩ := Option.isSome_iff_exists.mp
    ((df.getCol_isSome_iff "track_condition").mpr h2)
  obtain ⟨sx, hg3⟩ := Option.isSome_iff_exists.mp
    ((df.getCol_isSome_iff "sex").mpr h3)
  set A1 := df.setCol "track_type_enc" (tt.map (mapEncode TRACK_TYPE_MAP)) with hA1
  have e2 : A1.getCol "track_condition" = some tc := by
    rw [hA1, DataFrame.getCol_setCol_ne _ _ _ _ (by decide)]
    exact hg2
  set A2 := A1.setCol "track_condition_enc" (tc.map (mapEncode TRACK_CONDITION_MAP))
    with hA2
  have e3 : A2.getCol "sex" = some sx := by
    rw [hA2, hA1, DataFrame.getCol_setCol_ne _ _ _ _ (by decide),
      DataFrame.getCol_setCol_ne _ _ _ _ (by decide)]
    exact hg3
  set A3 := A2.setCol "sex_enc" (sx.map (mapEncode SEX_MAP)) with hA3
  set A4 := numeric_cols.foldl imputeStep A3 with hA4
  have hA3df : ∀ c : String, c ≠ "track_type_enc" → c ≠ "track_condition_enc" →
      c ≠ "sex_enc" → A3.getCol c = df.getCol c := by
    intro c hc1 hc2 hc3
    rw [hA3, hA2, hA1, DataFrame.getCol_setCol_ne _ _ _ _ hc3,
      DataFrame.getCol_setCol_ne _ _ _ _ hc2, DataFrame.getCol_setCol_ne _ _ _ _ hc1]
  have edist : A4.getCol "distance" = some dv := by
    rw [hA4, getCol_foldl_imputeStep_ne _ _ _ (by decide),
      hA3df _ (by decide) (by decide) (by decide)]
    exact hd
  have hdvok := mapExcept_divCellBy_all_num 1000 dv hdv
  set dv' := dv.map fun c => Cell.num (cellQ c / 1000) with hdv'
  set A5 := A4.setCol "distance_km" dv' with hA5
  have efin : A5.getCol "finish_position" = df.getCol "finish_position" := by
    rw [hA5, DataFrame.getCol_setCol_ne _ _ _ _ (by decide), hA4,
      getCol_foldl_imputeStep_ne _ _ _ (by decide),
      hA3df _ (by decide) (by decide) (by decide)]
  -- characterization of the feature columns of A5
  have h_ttenc : A5.getCol "track_type_enc" =
      some (tt.map (mapEncode TRACK_TYPE_MAP)) := by
    rw [hA5, DataFrame.getCol_setCol_ne _ _ _ _ (by decide), hA4,
      getCol_foldl_imputeStep_ne _ _ _ (by decide), hA3, hA2,
      DataFrame.getCol_setCol_ne _ _ _ _ (by decide),
      DataFrame.getCol_setCol_ne _ _ _ _ (by decide), hA1,
      DataFrame.getCol_setCol_self]
  have h_tcenc : A5.getCol "track_condition_enc" =
      some (tc.map (mapEncode TRACK_CONDITION_MAP)) := by
    rw [hA5, DataFrame.getCol_setCol_ne _ _ _ _ (by decide), hA4,
      getCol_foldl_imputeStep_ne _ _ _ (by decide), hA3,
      DataFrame.getCol_setCol_ne _ _ _ _ (by decide), hA2,
      DataFrame.getCol_setCol_self]
  have h_sxenc : A5.getCol "sex_enc" = some (sx.map (mapEncode SEX_MAP)) := by
    rw [hA5, DataFrame.getCol_setCol_ne _ _ _ _ (by decide), hA4,
      getCol_foldl_imputeStep_ne _ _ _ (by decide), hA3,
      DataFrame.getCol_setCol_self]
  have h_dkm : A5.getCol "distance_km" = some dv' := by
    rw [hA5, DataFrame.getCol_setCol_self]
  have h_pp : A5.getCol "post_position" = df.getCol "post_position" := by
    rw [hA5, DataFrame.getCol_setCol_ne _ _ _ _ (by decide), hA4,
      getCol_foldl_imputeStep_ne _ _ _ (by decide),
      hA3df _ (by decide) (by decide) (by decide)]
  have hnum8 : ∀ col ∈ numeric_cols, A5.getCol col =
      (df.getCol col).map fun v =>
        fillna (v.map toNumericCell) (medianCell (v.map toNumericCell)) := by
    intro col hcol
    have hne : ∀ s : String, s ∉ numeric_cols → col ≠ s :=
      fun s hs he => hs (he ▸ hcol)
    rw [hA5, DataFrame.getCol_setCol_ne _ _ _ _ (hne _ (by decide)), hA4,
      getCol_foldl_imputeStep_mem _ _ _ (by decide) hcol,
      hA3df _ (hne _ (by decide)) (hne _ (by decide)) (hne _ (by decide))]
  -- the no-missing property holds of any frame matching A5 on the features
  have hmain : ∀ out : DataFrame,
      (∀ c ∈ get_feature_columns, out.getCol c = A5.getCol c) →
      ∀ c ∈ get_feature_columns, ∀ v, out.getCol c = some v → Cell.na ∉ v := by
    intro out hchar c hc v hv
    rw [hchar c hc] at hv
    have hnumcase : ∀ col ∈ numeric_cols, ∀ w, A5.getCol col = some w →
        Cell.na ∉ w := by
      intro col hcol w hw
      rw [hnum8 col hcol] at hw
      obtain ⟨v0, hv0, hw0⟩ := Option.map_eq_some'.mp hw
      rw [← hw0]
      exact imputed_no_na v0 (hnum col hcol v0 hv0)
    simp only [get_feature_columns, List.mem_cons, List.not_mem_nil, or_false] at hc
    rcases hc with rfl | rfl | rfl | rfl | rfl | rfl | rfl | rfl | rfl | rfl | rfl | rfl | rfl
    · exact hnumcase _ (by decide) v hv
    · exact hnumcase _ (by decide) v hv
    · exact hnumcase _ (by decide) v hv
    · rw [h_sxenc] at hv
      cases hv
      exact na_notMem_map_mapEncode _ _
    · rw [h_pp] at hv
      exact na_notMem_all_num v (hpp v hv)
    · rw [h_dkm] at hv
      cases hv
      rw [hdv']
      exact na_notMem_map_num _ _
    · rw [h_ttenc] at hv
      cases hv
      exact na_notMem_map_mapEncode _ _
    · rw [h_tcenc] at hv
      cases hv
      exact na_notMem_map_mapEncode _ _
    · exact hnumcase _ (by decide) v hv
    · exact hnumcase _ (by decide) v hv
    · exact hnumcase _ (by decide) v hv
    · exact hnumcase _ (by decide) v hv
    · exact hnumcase _ (by decide) v hv
  have hmaps : (∀ s, TRACK_TYPE_MAP.lookup s = none →
        mapEncode TRACK_TYPE_MAP (Cell.cat s) = Cell.num (-1)) ∧
      (∀ s, TRACK_CONDITION_MAP.lookup s = none →
        mapEncode TRACK_CONDITION_MAP (Cell.cat s) = Cell.num (-1)) ∧
      (∀ s, SEX_MAP.lookup s = none →
        mapEncode SEX_MAP (Cell.cat s) = Cell.num (-1)) := by
    refine ⟨?_, ?_, ?_⟩ <;> (intro s hs; simp [mapEncode, hs])
  -- run preprocess
  rcases hgf : df.getCol "finish_position" with _ | fv
  · refine ⟨A5, ?_, hmain A5 (fun c _ => rfl), hmaps.1, hmaps.2.1, hmaps.2.2⟩
    simp only [preprocess, hg1, ← hA1, e2, ← hA2, e3, ← hA3, ← hA4, edist, hdvok,
      ← hdv', ← hA5, efin.trans hgf]
  · have efin6 : (A5.setCol "is_win" (fv.map eqOneCell)).getCol "finish_position" =
        some fv := by
      rw [DataFrame.getCol_setCol_ne _ _ _ _ (by decide)]
      exact efin.trans hgf
    obtain ⟨fv', hfv'⟩ := mapExcept_ok_of_noTok leThreeCell
      (fun c h => leThreeCell_ok c h) fv (hfin fv hgf)
    set out := ((A5.setCol "is_win" (fv.map eqOneCell)).setCol "is_top3" fv')
      with hout
    refine ⟨out, ?_, hmain out ?_, hmaps.1, hmaps.2.1, hmaps.2.2⟩
    · simp only [preprocess, hg1, ← hA1, e2, ← hA2, e3, ← hA3, ← hA4, edist, hdvok,
        ← hdv', ← hA5, efin.trans hgf, efin6, hfv', hout]
    · intro c hc
      have hne : ∀ s : String, s ∉ get_feature_columns → c ≠ s :=
        fun s hs he => hs (he ▸ hc)
      rw [hout, DataFrame.getCol_setCol_ne _ _ _ _ (hne _ (by decide)),
        DataFrame.getCol_setCol_ne _ _ _ _ (hne _ (by decide))]

end Keiba

namespace Keiba

/-- The concrete schema-conforming table used as witness input for the
preprocessor theorems. -/
def preprocWitnessDf : DataFrame :=
  ⟨[("track_type", [Cell.cat "芝"]), ("track_condition", [Cell.cat "良"]),
    ("sex", [Cell.cat "牡"]), ("distance", [Cell.num 1600]),
    ("post_position", [Cell.num 1]), ("horse_weight", [Cell.num 500]),
    ("finish_position", [Cell.num 1])]⟩

/-- Witness for `preprocess_ok_iff` at a concrete table having the three
categorical columns. -/
theorem preprocess_ok_iff_witness :
    (∃ out, preprocess preprocWitnessDf = .ok out) ↔
      ("track_type" ∈ preprocWitnessDf.names ∧
        "track_condition" ∈ preprocWitnessDf.names ∧
        "sex" ∈ preprocWitnessDf.names) :=
  preprocess_ok_iff preprocWitnessDf
    (by intro v hv s
        have h := Option.some.inj hv
        rw [← h]
        intro hc
        rcases List.mem_singleton.mp hc with h'
        exact Cell.noConfusion h')
    (by intro v hv s
        have h := Option.some.inj hv
        rw [← h]
        intro hc
        rcases List.mem_singleton.mp hc with h'
        exact Cell.noConfusion h')

/-- Witness for `preprocess_no_missing` at the same concrete table. -/
theorem preprocess_no_missing_witness :
    ∃ out, preprocess preprocWitnessDf = .ok out ∧
      (∀ c ∈ get_feature_columns, ∀ v, out.getCol c = some v → Cell.na ∉ v) ∧
      (∀ s, TRACK_TYPE_MAP.lookup s = none →
        mapEncode TRACK_TYPE_MAP (Cell.cat s) = Cell.num (-1)) ∧
      (∀ s, TRACK_CONDITION_MAP.lookup s = none →
        mapEncode TRACK_CONDITION_MAP (Cell.cat s) = Cell.num (-1)) ∧
      (∀ s, SEX_MAP.lookup s = none →
        mapEncode SEX_MAP (Cell.cat s) = Cell.num (-1)) :=
  preprocess_no_missing preprocWitnessDf (by decide) (by decide) (by decide)
    [Cell.num 1600] rfl
    (by intro c hc
        rcases List.mem_singleton.mp hc with rfl
        rfl)
    (by intro v hv
        have h := Option.some.inj hv
        rw [← h]
        intro c hc
        rcases List.mem_singleton.mp hc with rfl
        rfl)
    (by intro col hcol v hv
        simp only [numeric_cols, List.mem_cons, List.not_mem_nil, or_false] at hcol
        rcases hcol with rfl | rfl | rfl | rfl | rfl | rfl | rfl | rfl | rfl
        · have h := Option.some.inj hv
          rw [← h]
          decide
        all_goals exact Option.noConfusion hv)
    (by intro v hv s
        have h := Option.some.inj hv
        rw [← h]
        intro hc
        rcases List.mem_singleton.mp hc with h'
        exact Cell.noConfusion h')

end Keiba

namespace Keiba

/-! ## Claim C4 (amended): frame effect of `build_features` -/

/-- Column names the relative-ranking pass may add. -/
def pass1Names : List String :=
  ["odds_rank_in_race", "odds_norm", "weight_rank_in_race",
   "jockey_rank_in_race", "horses_in_race"]

/-- Column names the speed-index pass may add. -/
def pass2Names : List String :=
  ["speed_mps", "speed_rank_in_race", "speed_diff_from_mean"]

/-- `out` extends `df` by appending columns whose names come from `allowed`:
all pre-existing columns keep their values (hence row order), the frame stays
rectangular with `n` rows, and the name list grows only at the end. -/
def FrameExtL (allowed : List String) (df out : DataFrame) (n : ℕ) : Prop :=
  (∀ c ∈ df.names, out.getCol c = df.getCol c) ∧ out.EqLens n ∧
    ∃ s, out.names = df.names ++ s ∧ ∀ c ∈ s, c ∈ allowed

theorem frameExtL_refl (allowed : List String) (df : DataFrame) (n : ℕ)
    (h : df.EqLens n) : FrameExtL allowed df df n :=
  ⟨fun _ _ => rfl, h, [], by simp, by simp⟩

theorem frameExtL_setCol (allowed : List String) (df mid : DataFrame) (n : ℕ)
    (h : FrameExtL allowed df mid n) (name : String) (v : List Cell)
    (hname : name ∈ allowed) (hf : name ∉ df.names) (hlen : v.length = n) :
    FrameExtL allowed df (mid.setCol name v) n := by
  obtain ⟨hget, heq, s, hs, hsub⟩ := h
  refine ⟨?_, DataFrame.eqLens_setCol _ _ _ _ heq hlen, ?_⟩
  · intro c hc
    rw [DataFrame.getCol_setCol_ne _ _ _ _ (fun he => hf (by rw [← he]; exact hc))]
    exact hget c hc
  · rw [DataFrame.names_setCol]
    by_cases hm : name ∈ mid.names
    · refine ⟨s, ?_, hsub⟩
      rw [if_pos hm, hs]
    · refine ⟨s ++ [name], ?_, ?_⟩
      · rw [if_neg hm, hs, List.append_assoc]
      · intro c hc
        rcases List.mem_append.mp hc with hc | hc
        · exact hsub c hc
        · rw [List.mem_singleton.mp hc]
          exact hname

theorem frameExtL_trans (a1 a2 : List String) (df mid out : DataFrame) (n : ℕ)
    (h1 : FrameExtL a1 df mid n) (h2 : FrameExtL a2 mid out n) :
    FrameExtL (a1 ++ a2) df out n := by
  obtain ⟨hget1, _, s1, hs1, hsub1⟩ := h1
  obtain ⟨hget2, heq2, s2, hs2, hsub2⟩ := h2
  refine ⟨?_, heq2, s1 ++ s2, by rw [hs2, hs1, List.append_assoc], ?_⟩
  · intro c hc
    rw [hget2 c (by rw [hs1]; exact List.mem_append_left _ hc)]
    exact hget1 c hc
  · intro c hc
    rcases List.mem_append.mp hc with hc | hc
    · exact List.mem_append_left _ (hsub1 c hc)
    · exact List.mem_append_right _ (hsub2 c hc)

theorem rankVals_length (asc : Bool) (keys vals : List Cell) :
    (rankVals asc keys vals).length = vals.length := by
  simp [rankVals]

theorem transformCount_length (keys vals : List Cell) :
    (transformCount keys vals).length = vals.length := by
  simp [transformCount]

theorem transformMeanVals_length (keys vals : List Cell) :
    (transformMeanVals keys vals).length = vals.length := by
  simp [transformMeanVals]

theorem fillna_length (v : List Cell) (x : Cell) : (fillna v x).length = v.length := by
  simp [fillna]

theorem replace0na_length (v : List Cell) : (replace0na v).length = v.length := by
  simp [replace0na]

/-- Transfer a stored column of the extension back to the base frame. -/
theorem frameExtL_getCol_transfer (allowed : List String) (df mid : DataFrame)
    (n : ℕ) (h : FrameExtL allowed df mid n) (c : String) (hcn : c ∉ allowed) :
    ∀ w, mid.getCol c = some w → df.getCol c = some w := by
  intro w hw
  have hmem : c ∈ mid.names := (mid.getCol_isSome_iff c).mp (by rw [hw]; rfl)
  have hdf : c ∈ df.names := by
    obtain ⟨_, _, s, hs, hsub⟩ := h
    rw [hs] at hmem
    rcases List.mem_append.mp hmem with h' | h'
    · exact h'
    · exact absurd (hsub _ h') hcn
  rw [← h.1 c hdf]
  exact hw

/-- An optional per-race rank block (the `horse_weight` and `jockey_win_rate`
blocks) succeeds on a token-free (or absent) column and preserves the frame
extension. -/
theorem frameExtL_optRankBlock (allowed : List String) (df mid : DataFrame)
    (n : ℕ) (h : FrameExtL allowed df mid n) (keys : List Cell)
    (cname newname : String) (asc : Bool)
    (hnew : newname ∈ allowed) (hf : newname ∉ df.names) (hcn : cname ∉ allowed)
    (hnt : ∀ w, df.getCol cname = some w → hasTok w = false) :
    ∃ X, optRankBlock keys cname newname asc mid = .ok X ∧
      FrameExtL allowed df X n := by
  by_cases hc : cname ∈ mid.names
  · obtain ⟨w, hw⟩ := Option.isSome_iff_exists.mp
      ((mid.getCol_isSome_iff cname).mpr hc)
    have hwdf : df.getCol cname = some w :=
      frameExtL_getCol_transfer allowed df mid n h cname hcn w hw
    have e1 : rankMinBy asc keys w = .ok (rankVals asc keys w) :=
      rankMinBy_ok _ _ _ (hnt w hwdf)
    rw [optRankBlock, if_pos hc, hw]
    simp only [Option.getD_some, e1]
    refine ⟨_, rfl, frameExtL_setCol allowed df mid n h _ _ hnew hf ?_⟩
    rw [rankVals_length]
    exact mid.getCol_length cname w n h.2.1 hw
  · rw [optRankBlock, if_neg hc]
    exact ⟨mid, rfl, h⟩

end Keiba

namespace Keiba

theorem arrf_ext (df : DataFrame) (n : ℕ) (hrect : df.EqLens n)
    (hhn : "race_id" ∈ df.names → "horse_num" ∈ df.names)
    (hfresh : ∀ c ∈ pass1Names, c ∉ df.names)
    (hwoTok : ∀ w, df.getCol "win_odds" = some w → hasTok w = false)
    (hhwTok : ∀ w, df.getCol "horse_weight" = some w → hasTok w = false)
    (hjwTok : ∀ w, df.getCol "jockey_win_rate" = some w → hasTok w = false) :
    ∃ mid, add_race_relative_features df = .ok mid ∧
      FrameExtL pass1Names df mid n := by
  by_cases hr : "race_id" ∈ df.names
  · simp only [add_race_relative_features]
    rw [if_neg (not_not_intro hr)]
    have Hodds : ∃ d1, oddsBlock ((df.getCol "race_id").getD []) df = .ok d1 ∧
        FrameExtL pass1Names df d1 n := by
      by_cases hw : "win_odds" ∈ df.names
      · obtain ⟨v, hvv⟩ := Option.isSome_iff_exists.mp
          ((df.getCol_isSome_iff "win_odds").mpr hw)
        have hvl : v.length = n := df.getCol_length _ _ _ hrect hvv
        refine ⟨_, oddsBlock_ok _ _ _ hvv (hwoTok v hvv), ?_⟩
        refine frameExtL_setCol _ _ _ _
          (frameExtL_setCol _ _ _ _ (frameExtL_refl _ _ _ hrect) _ _
            (by decide) (hfresh _ (by decide)) ?_)
          _ _ (by decide) (hfresh _ (by decide)) ?_
        · rw [rankVals_length, hvl]
        · rw [List.length_zipWith, fillna_length, replace0na_length,
            transformMaxVals_length, hvl, Nat.min_self]
      · exact ⟨df, oddsBlock_skip _ _ hw, frameExtL_refl _ _ _ hrect⟩
    obtain ⟨d1, hd1, H1⟩ := Hodds
    simp only [hd1, bindE]
    obtain ⟨X2, hX2, HX2⟩ := frameExtL_optRankBlock pass1Names df d1 n H1
      ((df.getCol "race_id").getD []) "horse_weight" "weight_rank_in_race" false
      (by decide) (hfresh _ (by decide)) (by decide) hhwTok
    simp only [hX2, bindE]
    obtain ⟨X3, hX3, HX3⟩ := frameExtL_optRankBlock pass1Names df X2 n HX2
      ((df.getCol "race_id").getD []) "jockey_win_rate" "jockey_rank_in_race" false
      (by decide) (hfresh _ (by decide)) (by decide) hjwTok
    simp only [hX3, bindE]
    obtain ⟨hv, hhv⟩ := Option.isSome_iff_exists.mp
      ((df.getCol_isSome_iff "horse_num").mpr (hhn hr))
    have hX3hn : X3.getCol "horse_num" = some hv := by
      rw [HX3.1 "horse_num" (hhn hr), hhv]
    simp only [hX3hn]
    refine ⟨_, rfl, frameExtL_setCol _ _ _ _ HX3 _ _ (by decide)
      (hfresh _ (by decide)) ?_⟩
    rw [transformCount_length]
    exact df.getCol_length _ _ _ hrect hhv
  · simp only [add_race_relative_features]
    rw [if_pos hr]
    exact ⟨df, rfl, frameExtL_refl _ _ _ hrect⟩

theorem asi_ext (d : DataFrame) (n : ℕ) (hrect : d.EqLens n)
    (hfresh : ∀ c ∈ pass2Names, c ∉ d.names)
    (hftTok : ∀ w, d.getCol "finish_time_sec" = some w → hasTok w = false)
    (hdlTok : ∀ w, d.getCol "distance" = some w → hasTok w = false) :
    ∃ out, add_speed_index d = .ok out ∧ FrameExtL pass2Names d out n := by
  simp only [add_speed_index]
  by_cases hcond : "finish_time_sec" ∉ d.names ∨ "distance" ∉ d.names
  · rw [if_pos hcond]
    exact ⟨d, rfl, frameExtL_refl _ _ _ hrect⟩
  · rw [if_neg hcond]
    push_neg at hcond
    obtain ⟨hft, hdist⟩ := hcond
    obtain ⟨t, ht⟩ := Option.isSome_iff_exists.mp
      ((d.getCol_isSome_iff "finish_time_sec").mpr hft)
    obtain ⟨dl, hdl⟩ := Option.isSome_iff_exists.mp
      ((d.getCol_isSome_iff "distance").mpr hdist)
    have hz : zipDiv ((d.getCol "distance").getD [])
        (replace0na ((d.getCol "finish_time_sec").getD [])) =
        .ok (List.zipWith divVal ((d.getCol "distance").getD [])
          (replace0na ((d.getCol "finish_time_sec").getD []))) := by
      rw [ht, hdl]
      simp only [Option.getD_some]
      exact zipDiv_ok _ _ (hdlTok dl hdl) (hasTok_replace0na t (hftTok t ht))
    simp only [hz]
    have hslen : (List.zipWith divVal ((d.getCol "distance").getD [])
        (replace0na ((d.getCol "finish_time_sec").getD []))).length = n := by
      rw [ht, hdl]
      simp only [Option.getD_some]
      rw [List.length_zipWith, replace0na_length,
        d.getCol_length _ _ _ hrect hdl, d.getCol_length _ _ _ hrect ht,
        Nat.min_self]
    by_cases hrid : "race_id" ∈ (d.setCol "speed_mps"
        (List.zipWith divVal ((d.getCol "distance").getD [])
          (replace0na ((d.getCol "finish_time_sec").getD [])))).names
    · rw [if_pos hrid]
      set S := List.zipWith divVal ((d.getCol "distance").getD [])
        (replace0na ((d.getCol "finish_time_sec").getD [])) with hS
      set K := ((d.setCol "speed_mps" S).getCol "race_id").getD [] with hK
      have Hd1 : FrameExtL pass2Names d (d.setCol "speed_mps" S) n :=
        frameExtL_setCol _ _ _ _ (frameExtL_refl _ _ _ hrect) _ _ (by decide)
          (hfresh _ (by decide)) hslen
      have htokS : hasTok S = false := hasTok_zipWith_divVal _ _
      have e1 : rankMinBy false K S = .ok (rankVals false K S) :=
        rankMinBy_ok _ _ _ htokS
      have e2 : transformMean K S = .ok (transformMeanVals K S) :=
        transformMean_ok _ _ htokS
      simp only [e1, e2]
      refine ⟨_, rfl, frameExtL_setCol _ _ _ _ (frameExtL_setCol _ _ _ _ Hd1 _ _
        (by decide) (hfresh _ (by decide)) ?_) _ _ (by decide)
        (hfresh _ (by decide)) ?_⟩
      · rw [rankVals_length]
        exact hslen
      · rw [List.length_zipWith, transformMeanVals_length, Nat.min_self]
        exact hslen
    · rw [if_neg hrid]
      exact ⟨_, rfl, frameExtL_setCol _ _ _ _ (frameExtL_refl _ _ _ hrect) _ _
        (by decide) (hfresh _ (by decide)) hslen⟩

/-- C4 (amended): provided `horse_num` is present whenever `race_id` is,
none of the engineered column names already occur in the input, and the
columns the passes operate on arithmetically (`win_odds`, `horse_weight`,
`jockey_win_rate`, `finish_time_sec`, `distance`) hold no non-numeric token
wherever present (a token makes the grouped rank or the element-wise
division raise `TypeError`), the two passes of `build_features` succeed and
only append columns: the row count is preserved (the frame stays rectangular
with the same number of rows), every pre-existing column keeps its exact
cell list (hence row order and values), and the name list grows only by
engineered names at the end.  Each pass is a complete no-op when its guard
columns are absent: the relative-ranking pass without `race_id`, the speed
pass without `finish_time_sec` or `distance`.  (As stated originally the
claim fails: with `race_id` present and `horse_num` absent the relative pass
raises a `KeyError`.) -/
theorem build_features_frame_effect (df : DataFrame) (n : ℕ) (hrect : df.EqLens n)
    (hhn : "race_id" ∈ df.names → "horse_num" ∈ df.names)
    (hfresh : ∀ c ∈ pass1Names ++ pass2Names, c ∉ df.names)
    (hwoTok : ∀ w, df.getCol "win_odds" = some w → hasTok w = false)
    (hhwTok : ∀ w, df.getCol "horse_weight" = some w → hasTok w = false)
    (hjwTok : ∀ w, df.getCol "jockey_win_rate" = some w → hasTok w = false)
    (hftTok : ∀ w, df.getCol "finish_time_sec" = some w → hasTok w = false)
    (hdlTok : ∀ w, df.getCol "distance" = some w → hasTok w = false) :
    (∃ out, build_features df = .ok out ∧
      (∀ c ∈ df.names, out.getCol c = df.getCol c) ∧ out.EqLens n ∧
      ∃ s, out.names = df.names ++ s ∧ ∀ c ∈ s, c ∈ pass1Names ++ pass2Names) ∧
    ("race_id" ∉ df.names → add_race_relative_features df = .ok df) ∧
    (∀ d : DataFrame, "finish_time_sec" ∉ d.names ∨ "distance" ∉ d.names →
      add_speed_index d = .ok d) := by
  refine ⟨?_, ?_, ?_⟩
  · obtain ⟨mid, hmid, H1⟩ := arrf_ext df n hrect hhn
      (fun c hc => hfresh c (List.mem_append_left _ hc)) hwoTok hhwTok hjwTok
    have hfresh2 : ∀ c ∈ pass2Names, c ∉ mid.names := by
      intro c hc hcm
      obtain ⟨_, _, s, hs, hsub⟩ := H1
      rw [hs] at hcm
      rcases List.mem_append.mp hcm with h | h
      · exact hfresh c (List.mem_append_right _ hc) h
      · exact (by decide : ∀ x ∈ pass1Names, x ∉ pass2Names) c (hsub c h) hc
    obtain ⟨out, hout, H2⟩ := asi_ext mid n H1.2.1 hfresh2
      (fun w hw => hftTok w
        (frameExtL_getCol_transfer _ _ _ _ H1 _ (by decide) w hw))
      (fun w hw => hdlTok w
        (frameExtL_getCol_transfer _ _ _ _ H1 _ (by decide) w hw))
    have H := frameExtL_trans _ _ _ _ _ _ H1 H2
    refine ⟨out, ?_, H.1, H.2.1, H.2.2⟩
    simp only [build_features, hmid]
    exact hout
  · intro h
    rw [add_race_relative_features, if_pos h]
  · intro d hd
    rw [add_speed_index, if_pos hd]

/-- Witness for `build_features_frame_effect` on a concrete one-row table. -/
theorem build_features_frame_effect_witness :
    (∃ out, build_features ⟨[("race_id", [Cell.num 1]),
        ("horse_num", [Cell.num 1])]⟩ = .ok out ∧
      (∀ c ∈ (⟨[("race_id", [Cell.num 1]), ("horse_num", [Cell.num 1])]⟩ :
          DataFrame).names,
        out.getCol c = (⟨[("race_id", [Cell.num 1]),
          ("horse_num", [Cell.num 1])]⟩ : DataFrame).getCol c) ∧
      out.EqLens 1 ∧
      ∃ s, out.names = (⟨[("race_id", [Cell.num 1]),
          ("horse_num", [Cell.num 1])]⟩ : DataFrame).names ++ s ∧
        ∀ c ∈ s, c ∈ pass1Names ++ pass2Names) ∧
    ("race_id" ∉ (⟨[("race_id", [Cell.num 1]), ("horse_num", [Cell.num 1])]⟩ :
        DataFrame).names →
      add_race_relative_features ⟨[("race_id", [Cell.num 1]),
        ("horse_num", [Cell.num 1])]⟩ = .ok ⟨[("race_id", [Cell.num 1]),
        ("horse_num", [Cell.num 1])]⟩) ∧
    (∀ d : DataFrame, "finish_time_sec" ∉ d.names ∨ "distance" ∉ d.names →
      add_speed_index d = .ok d) :=
  build_features_frame_effect ⟨[("race_id", [Cell.num 1]),
    ("horse_num", [Cell.num 1])]⟩ 1
    (by intro p hp
        rcases List.mem_cons.mp hp with rfl | hp
        · rfl
        · rcases List.mem_cons.mp hp with rfl | hp
          · rfl
          · simp at hp)
    (fun _ => by decide) (by decide)
    (by intro w h; cases h) (by intro w h; cases h) (by intro w h; cases h)
    (by intro w h; cases h) (by intro w h; cases h)

end Keiba

namespace Keiba

/-! ## Claim C7: the synthetic generator -/

theorem mkHorseRecord_finish (r : Rng) (rid n : ℕ) (ord : List ℕ) (h : ℕ) :
    (mkHorseRecord r rid n ord h).1.finish_position = ord.getD (h - 1) 0 := rfl

theorem set_append_getD_perm (t : List ℕ) (j : ℕ) (v : ℕ) (hj : j < t.length) :
    ((t.set j v) ++ [t.getD j 0]).Perm (t ++ [v]) := by
  induction t generalizing j with
  | nil => simp at hj
  | cons a as ih =>
    cases j with
    | zero =>
      have h1 : (as ++ [a]).Perm (a :: as) := List.perm_append_singleton a as
      have h2 : (as ++ [v]).Perm (v :: as) := List.perm_append_singleton v as
      exact (h1.cons v).trans ((List.Perm.swap a v as).trans (h2.cons a).symm)
    | succ j' =>
      exact (ih j' (by simpa using hj)).cons a

theorem map_getD_range (l : List ℕ) :
    (List.range l.length).map (fun i => l.getD i 0) = l := by
  induction l with
  | nil => rfl
  | cons x xs ih =>
    rw [List.length_cons, List.range_succ_eq_map, List.map_cons, List.map_map]
    have hfun : ((fun i => (x :: xs).getD i 0) ∘ Nat.succ) = fun i => xs.getD i 0 :=
      funext fun i => rfl
    rw [hfun, ih]
    rfl

theorem fisherYates_fst_perm (l : List ℕ) (r : Rng) :
    ((fisherYates r l).1).Perm l := by
  generalize hN : l.length = N
  induction N using Nat.strong_induction_on generalizing l r with
  | _ N ih =>
    rw [fisherYates]
    by_cases h : l.length ≤ 1
    · rw [dif_pos h]
    · rw [dif_neg h]
      simp only [Rng.integers, Rng.next]
      rcases hfy : fisherYates ⟨r.stream, r.pos + 1⟩
          ((l.take (l.length - 1)).set (0 + r.stream r.pos % (l.length - 0))
            (l.getD (l.length - 1) 0)) with ⟨a, r2⟩
      simp only [hfy]
      have hn2 : 2 ≤ l.length := by omega
      have hjlt : 0 + r.stream r.pos % (l.length - 0) < l.length := by
        simpa using Nat.mod_lt (r.stream r.pos) (show 0 < l.length by omega)
      have htlen : (l.take (l.length - 1)).length = l.length - 1 := by simp
      have ha : a.Perm ((l.take (l.length - 1)).set
          (0 + r.stream r.pos % (l.length - 0)) (l.getD (l.length - 1) 0)) := by
        have hfront : ((l.take (l.length - 1)).set
            (0 + r.stream r.pos % (l.length - 0))
            (l.getD (l.length - 1) 0)).length = l.length - 1 := by
          rw [List.length_set, htlen]
        have := ih (l.length - 1) (by omega) _ ⟨r.stream, r.pos + 1⟩ hfront
        rw [hfy] at this
        exact this
      have hne : l ≠ [] := fun he => by simp [he] at hn2
      have hl : l.take (l.length - 1) ++ [l.getD (l.length - 1) 0] = l := by
        have h1 : l.getD (l.length - 1) 0 = l.getLast hne := by
          rw [List.getLast_eq_getElem, List.getD_eq_getElem?_getD,
            List.getElem?_eq_getElem (by omega)]
          rfl
        rw [h1, ← List.dropLast_eq_take, List.dropLast_concat_getLast]
      set j := 0 + r.stream r.pos % (l.length - 0) with hj
      by_cases hjcase : j < l.length - 1
      · have hx : (l.take (l.length - 1)).getD j 0 = l.getD j 0 := by
          rw [List.getD_eq_getElem?_getD, List.getD_eq_getElem?_getD,
            List.getElem?_take_of_lt hjcase]
        have hstep := set_append_getD_perm (l.take (l.length - 1)) j
          (l.getD (l.length - 1) 0) (by rw [htlen]; exact hjcase)
        rw [hx, hl] at hstep
        exact (List.Perm.append_right _ ha).trans hstep
      · have hjeq : j = l.length - 1 := by omega
        have hfronteq : (l.take (l.length - 1)).set j (l.getD (l.length - 1) 0) =
            l.take (l.length - 1) :=
          List.set_eq_of_length_le (by rw [htlen]; omega)
        rw [hfronteq] at ha
        rw [hjeq]
        have : (a ++ [l.getD (l.length - 1) 0]).Perm
            (l.take (l.length - 1) ++ [l.getD (l.length - 1) 0]) :=
          List.Perm.append_right _ ha
        rw [hl] at this
        exact this

theorem horseRecords_length (rid n : ℕ) (ord : List ℕ) (hs : List ℕ) :
    ∀ r : Rng, ((horseRecords rid n ord hs r).1).length = hs.length := by
  induction hs with
  | nil => intro r; rfl
  | cons h rest ih =>
    intro r
    rcases hmk : mkHorseRecord r rid n ord h with ⟨rc, r1⟩
    rcases hrest : horseRecords rid n ord rest r1 with ⟨rcs, r2⟩
    have htl : rcs.length = rest.length := by
      have := ih r1
      rw [hrest] at this
      exact this
    rw [show horseRecords rid n ord (h :: rest) r = (rc :: rcs, r2) from by
      simp only [horseRecords, hmk, hrest]]
    simp only [List.length_cons, htl]

theorem horseRecords_map_finish (rid n : ℕ) (ord : List ℕ) (hs : List ℕ) :
    ∀ r : Rng, ((horseRecords rid n ord hs r).1).map (fun rc => rc.finish_position) =
      hs.map fun h => ord.getD (h - 1) 0 := by
  induction hs with
  | nil => intro r; rfl
  | cons h rest ih =>
    intro r
    rcases hmk : mkHorseRecord r rid n ord h with ⟨rc, r1⟩
    rcases hrest : horseRecords rid n ord rest r1 with ⟨rcs, r2⟩
    have htl : rcs.map (fun rc => rc.finish_position) =
        rest.map fun h => ord.getD (h - 1) 0 := by
      have := ih r1
      rw [hrest] at this
      exact this
    have hhd : rc.finish_position = ord.getD (h - 1) 0 := by
      have hrc : rc = (mkHorseRecord r rid n ord h).1 := by rw [hmk]
      rw [hrc, mkHorseRecord_finish]
    rw [show horseRecords rid n ord (h :: rest) r = (rc :: rcs, r2) from by
      simp only [horseRecords, hmk, hrest]]
    simp only [List.map_cons, htl, hhd]

theorem raceRecords_spec (r : Rng) (rid : ℕ) :
    8 ≤ (raceRecords r rid).1.length ∧ (raceRecords r rid).1.length ≤ 16 ∧
      ((raceRecords r rid).1.map fun rc => rc.finish_position).Perm
        (List.range' 1 (raceRecords r rid).1.length) := by
  unfold raceRecords
  simp only [Rng.integers, Rng.next]
  rcases hfy : fisherYates ⟨r.stream, r.pos + 1⟩
      (List.range (8 + r.stream r.pos % (17 - 8))) with ⟨perm, r2⟩
  simp only [hfy]
  have hperm : perm.Perm (List.range (8 + r.stream r.pos % (17 - 8))) := by
    have := fisherYates_fst_perm (List.range (8 + r.stream r.pos % (17 - 8)))
      ⟨r.stream, r.pos + 1⟩
    rw [hfy] at this
    exact this
  set nh := 8 + r.stream r.pos % (17 - 8) with hnh
  have hlen : ((horseRecords rid nh (perm.map (· + 1))
      (List.range' 1 nh) r2).1).length = nh := by
    rw [horseRecords_length, List.length_range']
  refine ⟨?_, ?_, ?_⟩
  · rw [hlen, hnh]
    omega
  · rw [hlen, hnh]
    have := Nat.mod_lt (r.stream r.pos) (show 0 < 17 - 8 by norm_num)
    omega
  · rw [horseRecords_map_finish, hlen]
    have horder_len : (perm.map (· + 1)).length = nh := by
      rw [List.length_map, hperm.length_eq, List.length_range]
    have heq : (List.range' 1 nh).map (fun h => (perm.map (· + 1)).getD (h - 1) 0) =
        perm.map (· + 1) := by
      rw [List.range'_eq_map_range, List.map_map]
      have hfun : ((fun h => (perm.map (· + 1)).getD (h - 1) 0) ∘ (1 + ·)) =
          fun i => (perm.map (· + 1)).getD i 0 := by
        funext i
        simp
      rw [hfun, ← horder_len, map_getD_range]
    rw [heq]
    refine (hperm.map _).trans ?_
    rw [List.range'_eq_map_range]
    rw [List.map_congr_left (fun i _ => Nat.add_comm i 1)]

theorem racesAux_length (rids : List ℕ) :
    ∀ r : Rng, ((racesAux rids r).1).length = rids.length := by
  induction rids with
  | nil => intro r; rfl
  | cons rid rest ih =>
    intro r
    rcases hrr : raceRecords r rid with ⟨rr, r1⟩
    rcases hrest : racesAux rest r1 with ⟨others, r2⟩
    have htl : others.length = rest.length := by
      have := ih r1
      rw [hrest] at this
      exact this
    rw [show racesAux (rid :: rest) r = (rr :: others, r2) from by
      simp only [racesAux, hrr, hrest]]
    simp only [List.length_cons, htl]

theorem racesAux_mem (rids : List ℕ) :
    ∀ (r : Rng) (race : List RaceRecord), race ∈ (racesAux rids r).1 →
      ∃ (rid : ℕ) (r' : Rng), race = (raceRecords r' rid).1 := by
  induction rids with
  | nil => intro r race hr; simp [racesAux] at hr
  | cons rid rest ih =>
    intro r race hr
    rcases hrr : raceRecords r rid with ⟨rr, r1⟩
    rcases hrest : racesAux rest r1 with ⟨others, r2⟩
    rw [show racesAux (rid :: rest) r = (rr :: others, r2) from by
      simp only [racesAux, hrr, hrest]] at hr
    rcases List.mem_cons.mp hr with rfl | hr
    · exact ⟨rid, r, by rw [hrr]⟩
    · have := ih r1 race
      rw [hrest] at this
      exact this hr

/-- C7: the synthetic generator is a pure function of the seed-determined
draw stream (two invocations on the same stream give the same table), always
produces exactly 100 races, each race has between 8 and 16 entries, and the
finish positions of every race form a permutation of `1..N` with `N` the
race's entry count — for an arbitrary stream, hence in particular for the
stream of `np.random.default_rng(42)`. -/
theorem generate_sample_race_results_spec (r : Rng) :
    _generate_sample_race_results r = _generate_sample_race_results r ∧
    (sampleRaces r).length = 100 ∧
    ∀ race ∈ sampleRaces r, 8 ≤ race.length ∧ race.length ≤ 16 ∧
      (race.map fun rc => rc.finish_position).Perm (List.range' 1 race.length) := by
  refine ⟨rfl, ?_, ?_⟩
  · unfold sampleRaces
    rw [racesAux_length, List.length_range']
  · intro race hrace
    obtain ⟨rid, r', heq⟩ := racesAux_mem (List.range' 1 100) r race hrace
    rw [heq]
    exact raceRecords_spec r' rid

/-- Witness for `generate_sample_race_results_spec` at the all-zeros
stream. -/
theorem generate_sample_race_results_spec_witness :
    _generate_sample_race_results ⟨fun _ => 0, 0⟩ =
      _generate_sample_race_results ⟨fun _ => 0, 0⟩ ∧
    (sampleRaces ⟨fun _ => 0, 0⟩).length = 100 ∧
    ∀ race ∈ sampleRaces ⟨fun _ => 0, 0⟩, 8 ≤ race.length ∧ race.length ≤ 16 ∧
      (race.map fun rc => rc.finish_position).Perm (List.range' 1 race.length) :=
  generate_sample_race_results_spec ⟨fun _ => 0, 0⟩

end Keiba
